import Mathlib

/-!
# Sudoku solver (`sudoku.c`): embedding and verification

The program keeps one global `int puzzle[9][9]`, fills it by recursive
backtracking (`solveSudoku`), and `main` forks one child process per empty
cell, each child searching from its own start cell on its own copy of the
grid.  The embedding below passes the grid explicitly: every function that
reads or writes `puzzle` takes the grid as an argument and returns the grid it
leaves behind.
-/

namespace Sudoku

/-! ## Data model -/

/-- The constant `GRID_SIZE`. -/
def GRID_SIZE : Nat := 9

/-- The constant `SUBGRID_SIZE`. -/
def SUBGRID_SIZE : Nat := 3

/-- The global `int puzzle[GRID_SIZE][GRID_SIZE]`, as a list of rows. -/
abbrev Grid := List (List Int)

/-- The read `puzzle[row][col]`. -/
def Grid.get (puzzle : Grid) (row col : Nat) : Int := (puzzle.getD row []).getD col 0

/-- The write `puzzle[row][col] = v`. -/
def Grid.put (puzzle : Grid) (row col : Nat) (v : Int) : Grid :=
  List.set puzzle row (List.set (puzzle.getD row []) col v)

/-- The grid has nine rows of nine cells. -/
def Grid.Shaped (g : Grid) : Prop := g.length = 9 ∧ ∀ r ∈ g, r.length = 9

instance (g : Grid) : Decidable g.Shaped := by unfold Grid.Shaped; infer_instance

/-- Every cell holds a value in 0..9 (what `loadSudoku` can produce). -/
def Grid.InRange (g : Grid) : Prop :=
  ∀ r, r < 9 → ∀ c, c < 9 → 0 ≤ g.get r c ∧ g.get r c ≤ 9

instance (g : Grid) : Decidable g.InRange := by unfold Grid.InRange; infer_instance

/-! ## `solveSudoku` -/

/-- The cell `puzzle[subgrid_row + i / SUBGRID_SIZE][subgrid_col + i % SUBGRID_SIZE]`
read at step `i` of the inner loop, with `subgrid_row = row / 3 * 3` and
`subgrid_col = column / 3 * 3` (source lines 125-126 and 135). -/
def blockCell (row column i : Nat) : Nat × Nat :=
  let subgrid_row := row / SUBGRID_SIZE * SUBGRID_SIZE
  let subgrid_col := column / SUBGRID_SIZE * SUBGRID_SIZE
  (subgrid_row + i / SUBGRID_SIZE, subgrid_col + i % SUBGRID_SIZE)

/-- The inner loop of `solveSudoku` (source lines 125-138): starting from
`valid = 1`, nine steps `i = 0..8`, each taken only while `valid` is nonzero,
clearing `valid` when `num` is met in the row, the column or the block.  The
result is the final value of `valid`. -/
def validityLoop (puzzle : Grid) (row column : Nat) (num : Int) : Int :=
  (List.range GRID_SIZE).foldl
    (fun valid i =>
      if valid ≠ 0 then
        if puzzle.get row i = num ∨ puzzle.get i column = num ∨
            puzzle.get (blockCell row column i).1 (blockCell row column i).2 = num
        then 0 else valid
      else valid)
    1

/-- The values taken by `num` in `for (num = 1; num <= GRID_SIZE; num++)`. -/
def digits : List Int := (List.range GRID_SIZE).map (fun (k : Nat) => (k : Int) + 1)

/-- The digit loop of `solveSudoku` (source lines 128-168) over the remaining
values of `num`; `recurse` is the call `solveSudoku(nextRow, nextCol)`.  A
valid digit is written, the recursive call is made, and on failure the cell is
reset to 0 before the next digit; when the digits run out the result is 0. -/
def digitLoop (recurse : Grid → Option (Int × Grid)) (row column : Nat) :
    List Int → Grid → Option (Int × Grid)
  | [], puzzle => some (0, puzzle)
  | num :: rest, puzzle =>
    if validityLoop puzzle row column num ≠ 0 then
      match recurse (puzzle.put row column num) with
      | none => none
      | some (r, puzzle1) =>
        if r ≠ 0 then some (1, puzzle1)
        else digitLoop recurse row column rest (puzzle1.put row column 0)
    else digitLoop recurse row column rest puzzle

/-- The function `solveSudoku(row, column)` on the grid `puzzle`.  The first
argument bounds the depth of the recursion; `none` means the bound was
reached.  The result is the returned `int` and the grid left behind. -/
def solveSudoku : Nat → Grid → Nat → Nat → Option (Int × Grid)
  | 0, _, _, _ => none
  | fuel + 1, puzzle, row, column =>
    if row = GRID_SIZE then some (1, puzzle)
    else if column = GRID_SIZE then solveSudoku fuel puzzle (row + 1) 0
    else if puzzle.get row column ≠ 0 then solveSudoku fuel puzzle row (column + 1)
    else
      let nextRow := if column + 1 = GRID_SIZE then row + 1 else row
      let nextCol := if column + 1 = GRID_SIZE then 0 else column + 1
      digitLoop (fun p => solveSudoku fuel p nextRow nextCol) row column digits puzzle

/-- Distance of the scan cursor `(row, column)` from the end of the scan: it
drops by at least one at each of the three recursive calls of `solveSudoku`. -/
def fuelFor (row column : Nat) : Nat := (9 - row) * 11 + (10 - column)

/-- The digit loop again, with a log of the `(row, column)` arguments of every
invocation of `solveSudoku` made below it. -/
def digitLoopLog (recurse : Grid → Option (Int × Grid × List (Nat × Nat)))
    (row column : Nat) : List Int → Grid → Option (Int × Grid × List (Nat × Nat))
  | [], puzzle => some (0, puzzle, [])
  | num :: rest, puzzle =>
    if validityLoop puzzle row column num ≠ 0 then
      match recurse (puzzle.put row column num) with
      | none => none
      | some (r, puzzle1, calls) =>
        if r ≠ 0 then some (1, puzzle1, calls)
        else
          match digitLoopLog recurse row column rest (puzzle1.put row column 0) with
          | none => none
          | some (r2, puzzle2, calls2) => some (r2, puzzle2, calls ++ calls2)
    else digitLoopLog recurse row column rest puzzle

/-- The function `solveSudoku` again, instrumented: besides the result and the
grid it returns the arguments of every invocation, the outermost first. -/
def solveSudokuLog : Nat → Grid → Nat → Nat → Option (Int × Grid × List (Nat × Nat))
  | 0, _, _, _ => none
  | fuel + 1, puzzle, row, column =>
    if row = GRID_SIZE then some (1, puzzle, [(row, column)])
    else if column = GRID_SIZE then
      match solveSudokuLog fuel puzzle (row + 1) 0 with
      | none => none
      | some (r, p, calls) => some (r, p, (row, column) :: calls)
    else if puzzle.get row column ≠ 0 then
      match solveSudokuLog fuel puzzle row (column + 1) with
      | none => none
      | some (r, p, calls) => some (r, p, (row, column) :: calls)
    else
      let nextRow := if column + 1 = GRID_SIZE then row + 1 else row
      let nextCol := if column + 1 = GRID_SIZE then 0 else column + 1
      match digitLoopLog (fun p => solveSudokuLog fuel p nextRow nextCol) row column
          digits puzzle with
      | none => none
      | some (r, p, calls) => some (r, p, (row, column) :: calls)

/-! ## `countZeros`, `check` and `main` -/

/-- The function `countZeros()`. -/
def countZeros (puzzle : Grid) : Nat :=
  (List.range GRID_SIZE).foldl
    (fun zeroCount row =>
      (List.range GRID_SIZE).foldl
        (fun zeroCount col => if puzzle.get row col = 0 then zeroCount + 1 else zeroCount)
        zeroCount)
    0

/-- The function `check(puzzle)`: 0 as soon as a cell equal to 0 is met, 1 otherwise. -/
def check (puzzle : Grid) : Int :=
  if (List.range 9).all (fun i => (List.range 9).all (fun j => decide (puzzle.get i j ≠ 0)))
  then 1 else 0

/-- The start cells for which the dispatch loop of `main` (source lines
200-229) calls `fork`, in the order of the calls. -/
def dispatchCells (puzzle : Grid) : List (Nat × Nat) :=
  (List.range GRID_SIZE).foldr
    (fun row acc =>
      (List.range GRID_SIZE).foldr
        (fun col acc => if puzzle.get row col = 0 then (row, col) :: acc else acc)
        acc)
    []

/-- How a forked child leaves the child branch of `main` (source lines 206-219). -/
inductive WorkerEnd where
  /-- `solveSudoku` returned 1 and `check` passed: `saveSudoku`, then `exit(0)`. -/
  | savedExit0 (solution : Grid)
  /-- `solveSudoku` did not return 1: `exit(1)`. -/
  | exit1
  /-- `solveSudoku` returned 1 and `check` failed: the `if (f)` at line 210 has no
  `else`, so no `exit` is reached in the branch and the child goes on with the
  rest of `main` (lines 226-247) on its own grid; the only `exit` there is the
  one after a failed `fork`, and `main` ends in `return 0`. -/
  | fellThrough (left : Grid)
deriving DecidableEq

/-- The child branch of `main` for the worker forked at `(row, col)`; the child
works on its own copy of the grid as it was at the `fork`. -/
def worker (puzzle : Grid) (row col : Nat) : Option WorkerEnd :=
  match solveSudoku (fuelFor row col) puzzle row col with
  | none => none
  | some (r, p) =>
    if r = 1 then
      if check p ≠ 0 then some (WorkerEnd.savedExit0 p) else some (WorkerEnd.fellThrough p)
    else some WorkerEnd.exit1

/-- The exit status of the child process: the argument of `exit`, or the 0
returned by `main` at line 247 when the child fell through. -/
def WorkerEnd.status : WorkerEnd → Int
  | WorkerEnd.savedExit0 _ => 0
  | WorkerEnd.exit1 => 1
  | WorkerEnd.fellThrough _ => 0

/-- What the child wrote to `output.txt`, if it called `saveSudoku`. -/
def WorkerEnd.saved : WorkerEnd → Option Grid
  | WorkerEnd.savedExit0 g => some g
  | WorkerEnd.exit1 => none
  | WorkerEnd.fellThrough _ => none

/-- The grid of the child when it left the child branch after a search that returned 1. -/
def WorkerEnd.finalGrid : WorkerEnd → Option Grid
  | WorkerEnd.savedExit0 g => some g
  | WorkerEnd.exit1 => none
  | WorkerEnd.fellThrough g => some g

/-- The children of the coordinator, in launch order. -/
def runWorkers (puzzle : Grid) : List (Nat × Nat) → Option (List WorkerEnd)
  | [] => some []
  | (row, col) :: rest =>
    match worker puzzle row col, runWorkers puzzle rest with
    | some w, some ws => some (w :: ws)
    | _, _ => none

/-- The wait loop of `main` (source lines 234-241) over the exit statuses in
launch order: the value of `child_found` after the loop. -/
def waitLoop : List Int → Int
  | [] => 0
  | status :: rest => if status = 0 then 1 else waitLoop rest

/-- The worker at which the wait loop breaks: the first one with exit status 0. -/
def firstAccepted : List WorkerEnd → Option WorkerEnd
  | [] => none
  | w :: rest => if w.status = 0 then some w else firstAccepted rest

/-- What a run of the coordinator (the parent process in `main`) shows. -/
structure MainRun where
  /-- The start cells of the workers, in launch order. -/
  launched : List (Nat × Nat)
  /-- How each worker ended. -/
  ends : List WorkerEnd
  /-- The variable `child_found` after the wait loop. -/
  child_found : Int
  /-- Whether "No solution exists" was printed. -/
  printedNoSolution : Bool
  /-- The worker whose exit status 0 ended the wait loop. -/
  accepted : Option WorkerEnd
deriving DecidableEq

/-- The coordinator: `main` from line 193 on, in the parent process, for a
loaded grid; every `fork` is taken to succeed. -/
def main (puzzle : Grid) : Option MainRun :=
  let num_processes := countZeros puzzle
  let cells := dispatchCells puzzle
  match runWorkers puzzle cells with
  | none => none
  | some ws =>
    let waited := ws.take num_processes
    let child_found := waitLoop (waited.map WorkerEnd.status)
    some (MainRun.mk cells ws child_found (decide (child_found = 0)) (firstAccepted waited))

/-! ## Properties of grids used in the statements -/

/-- Two distinct cells that lie in the same row, the same column or the same 3x3 block. -/
def Peer (r c r' c' : Nat) : Prop :=
  (r ≠ r' ∨ c ≠ c') ∧ (r = r' ∨ c = c' ∨ (r / 3 = r' / 3 ∧ c / 3 = c' / 3))

instance (r c r' c' : Nat) : Decidable (Peer r c r' c') := by unfold Peer; infer_instance

/-- No other cell of the row, column or block of `(r, c)` holds the value of `(r, c)`. -/
def NoPeerHolds (h : Grid) (r c : Nat) : Prop :=
  ∀ r', r' < 9 → ∀ c', c' < 9 → Peer r c r' c' → h.get r' c' ≠ h.get r c

instance (h : Grid) (r c : Nat) : Decidable (NoPeerHolds h r c) := by
  unfold NoPeerHolds; infer_instance

/-- For every filled cell, no other cell of its row, column or block holds the same digit. -/
def Consistent (g : Grid) : Prop :=
  ∀ r, r < 9 → ∀ c, c < 9 → g.get r c ≠ 0 → NoPeerHolds g r c

instance (g : Grid) : Decidable (Consistent g) := by unfold Consistent; infer_instance

/-- Cell `(r, c)` is at or after `(row, col)` in row-major order. -/
def AtOrAfter (row col r c : Nat) : Prop := row < r ∨ (row = r ∧ col ≤ c)

instance (row col r c : Nat) : Decidable (AtOrAfter row col r c) := by
  unfold AtOrAfter; infer_instance

/-- The grid `h` arises from `g` by assigning digits 1..9 to the empty cells of `g`
at or after `(row, col)`, leaving every other cell as it is, such that none of
the newly filled cells shares its digit with another cell of its row, column
or block. -/
def Assigned (g : Grid) (row col : Nat) (h : Grid) : Prop :=
  h.Shaped ∧
  (∀ r, r < 9 → ∀ c, c < 9 → ¬ (AtOrAfter row col r c ∧ g.get r c = 0) →
    h.get r c = g.get r c) ∧
  (∀ r, r < 9 → ∀ c, c < 9 → AtOrAfter row col r c → g.get r c = 0 →
    (1 ≤ h.get r c ∧ h.get r c ≤ 9) ∧ NoPeerHolds h r c)

/-- The same, with the start given as a row-major position `k = 9 * row + col`. -/
def Fills (g : Grid) (k : Nat) (h : Grid) : Prop :=
  h.Shaped ∧
  (∀ r, r < 9 → ∀ c, c < 9 → ¬ (k ≤ 9 * r + c ∧ g.get r c = 0) → h.get r c = g.get r c) ∧
  (∀ r, r < 9 → ∀ c, c < 9 → k ≤ 9 * r + c → g.get r c = 0 →
    (1 ≤ h.get r c ∧ h.get r c ≤ 9) ∧ NoPeerHolds h r c)

/-- The grid `h` is a valid Sudoku completion of `g`: it keeps the filled cells of
`g`, every cell holds a digit 1..9, and no two cells of a row, column or block
hold the same digit. -/
def ValidCompletion (g h : Grid) : Prop :=
  h.Shaped ∧
  (∀ r, r < 9 → ∀ c, c < 9 → g.get r c ≠ 0 → h.get r c = g.get r c) ∧
  (∀ r, r < 9 → ∀ c, c < 9 → (1 ≤ h.get r c ∧ h.get r c ≤ 9) ∧ NoPeerHolds h r c)

instance (g h : Grid) : Decidable (ValidCompletion g h) := by
  unfold ValidCompletion; infer_instance

/-- What the search leaves behind from position `k`: failure with the grid
restored and nothing to find, or success with a filling. -/
def SearchPost (g : Grid) (k : Nat) (out : Option (Int × Grid)) : Prop :=
  ∃ res g', out = some (res, g') ∧
    ((res = 0 ∧ g' = g ∧ ¬ ∃ h, Fills g k h) ∨ (res = 1 ∧ Fills g k g'))

/-! ## Concrete grids -/

/-- Scenario 1 of the specification: row 0 is `123456780`, the rest is empty. -/
def scenario1 : Grid :=
  [[1, 2, 3, 4, 5, 6, 7, 8, 0],
   [0, 0, 0, 0, 0, 0, 0, 0, 0],
   [0, 0, 0, 0, 0, 0, 0, 0, 0],
   [0, 0, 0, 0, 0, 0, 0, 0, 0],
   [0, 0, 0, 0, 0, 0, 0, 0, 0],
   [0, 0, 0, 0, 0, 0, 0, 0, 0],
   [0, 0, 0, 0, 0, 0, 0, 0, 0],
   [0, 0, 0, 0, 0, 0, 0, 0, 0],
   [0, 0, 0, 0, 0, 0, 0, 0, 0]]

/-- The grid the search from `(0, 8)` leaves on scenario 1. -/
def scenario1Solved : Grid :=
  [[1, 2, 3, 4, 5, 6, 7, 8, 9],
   [4, 5, 6, 7, 8, 9, 1, 2, 3],
   [7, 8, 9, 1, 2, 3, 4, 5, 6],
   [2, 1, 4, 3, 6, 5, 8, 9, 7],
   [3, 6, 5, 8, 9, 7, 2, 1, 4],
   [8, 9, 7, 2, 1, 4, 3, 6, 5],
   [5, 3, 1, 6, 4, 2, 9, 7, 8],
   [6, 4, 2, 9, 7, 8, 5, 3, 1],
   [9, 7, 8, 5, 3, 1, 6, 4, 2]]

/-- A solved grid with its last cell emptied: one empty cell, one completion. -/
def lastCellOpen : Grid :=
  [[1, 2, 3, 4, 5, 6, 7, 8, 9],
   [4, 5, 6, 7, 8, 9, 1, 2, 3],
   [7, 8, 9, 1, 2, 3, 4, 5, 6],
   [2, 1, 4, 3, 6, 5, 8, 9, 7],
   [3, 6, 5, 8, 9, 7, 2, 1, 4],
   [8, 9, 7, 2, 1, 4, 3, 6, 5],
   [5, 3, 1, 6, 4, 2, 9, 7, 8],
   [6, 4, 2, 9, 7, 8, 5, 3, 1],
   [9, 7, 8, 5, 3, 1, 6, 4, 0]]

/-- A grid without duplicates whose empty cells `(0, 8)` and `(1, 0)` admit no
digit (row 0 lacks only 1 and column 8 holds 1; row 1 lacks only 2 and column 0
holds 2), while the empty cell `(8, 8)` admits 7. -/
def blockedGrid : Grid :=
  [[6, 3, 9, 4, 5, 2, 7, 8, 0],
   [0, 7, 4, 3, 6, 8, 1, 5, 9],
   [2, 8, 5, 7, 1, 9, 4, 3, 6],
   [9, 4, 2, 1, 8, 5, 6, 7, 3],
   [7, 6, 1, 9, 4, 3, 8, 2, 5],
   [8, 5, 3, 2, 7, 6, 9, 1, 4],
   [3, 2, 7, 6, 9, 1, 5, 4, 8],
   [4, 9, 8, 5, 3, 7, 2, 6, 1],
   [5, 1, 6, 8, 2, 4, 3, 9, 0]]

/-- The grid the worker started at `(8, 8)` leaves on `blockedGrid`. -/
def blockedGridLeft : Grid :=
  [[6, 3, 9, 4, 5, 2, 7, 8, 0],
   [0, 7, 4, 3, 6, 8, 1, 5, 9],
   [2, 8, 5, 7, 1, 9, 4, 3, 6],
   [9, 4, 2, 1, 8, 5, 6, 7, 3],
   [7, 6, 1, 9, 4, 3, 8, 2, 5],
   [8, 5, 3, 2, 7, 6, 9, 1, 4],
   [3, 2, 7, 6, 9, 1, 5, 4, 8],
   [4, 9, 8, 5, 3, 7, 2, 6, 1],
   [5, 1, 6, 8, 2, 4, 3, 9, 7]]

/-- A solved grid with `(0, 0)` overwritten by 2, so that row 0 holds 2 twice,
and with its last cell emptied. -/
def dupGrid : Grid :=
  [[2, 2, 3, 4, 5, 6, 7, 8, 9],
   [4, 5, 6, 7, 8, 9, 1, 2, 3],
   [7, 8, 9, 1, 2, 3, 4, 5, 6],
   [2, 1, 4, 3, 6, 5, 8, 9, 7],
   [3, 6, 5, 8, 9, 7, 2, 1, 4],
   [8, 9, 7, 2, 1, 4, 3, 6, 5],
   [5, 3, 1, 6, 4, 2, 9, 7, 8],
   [6, 4, 2, 9, 7, 8, 5, 3, 1],
   [9, 7, 8, 5, 3, 1, 6, 4, 0]]

/-- The grid the worker started at `(8, 8)` leaves on `dupGrid`. -/
def dupGridLeft : Grid :=
  [[2, 2, 3, 4, 5, 6, 7, 8, 9],
   [4, 5, 6, 7, 8, 9, 1, 2, 3],
   [7, 8, 9, 1, 2, 3, 4, 5, 6],
   [2, 1, 4, 3, 6, 5, 8, 9, 7],
   [3, 6, 5, 8, 9, 7, 2, 1, 4],
   [8, 9, 7, 2, 1, 4, 3, 6, 5],
   [5, 3, 1, 6, 4, 2, 9, 7, 8],
   [6, 4, 2, 9, 7, 8, 5, 3, 1],
   [9, 7, 8, 5, 3, 1, 6, 4, 2]]

/-! ## Order on grids -/

/-- The grid `a` comes no later than `b` when the cells are compared in row-major
order: the grids agree on all 81 cells, or at the first cell where they differ
`a` holds the smaller value. -/
def LexLE (a b : Grid) : Prop :=
  (∀ r, r < 9 → ∀ c, c < 9 → a.get r c = b.get r c) ∨
  ∃ r, r < 9 ∧ ∃ c, c < 9 ∧ a.get r c < b.get r c ∧
    ∀ r', r' < 9 → ∀ c', c' < 9 → ¬ AtOrAfter r c r' c' → a.get r' c' = b.get r' c'

/-! ## The coordinator: empty cells and the wait loop -/

/-- The 81 cell coordinates in row-major order. -/
def rowMajorCells : List (Nat × Nat) :=
  (List.range 9).flatMap (fun r => (List.range 9).map (fun c => (r, c)))

/-- The empty cells of a grid, in row-major order. -/
def emptyCells (g : Grid) : List (Nat × Nat) :=
  rowMajorCells.filter (fun rc => decide (g.get rc.1 rc.2 = 0))

/-- The number of `waitpid` calls made by the wait loop of `main` (source lines
234-241) over the exit statuses in launch order: the loop leaves at the first
status 0. -/
def waitCalls : List Int → Nat
  | [] => 0
  | status :: rest => if status = 0 then 1 else waitCalls rest + 1

/-! ## Events of `solveSudoku` and the semaphores -/

/-- The semaphores of the program: `row_semaphores[i]`, `column_semaphores[i]`
and `subgrid_semaphores[i][j]`. -/
inductive Sem where
  | row (i : Nat)
  | column (i : Nat)
  | subgrid (i j : Nat)
deriving DecidableEq

/-- What `solveSudoku` does besides computing: it is entered, it calls
`sem_wait` and `sem_post`, it writes a cell of `puzzle`, it returns. -/
inductive Event where
  | call (row column : Nat)
  | wait (s : Sem)
  | post (s : Sem)
  | write (row column : Nat) (v : Int)
  | ret (v : Int)
deriving DecidableEq

/-- The events of source lines 143-152 for an accepted `num`: three `sem_wait`,
the write, three `sem_post`, in the order of the source. -/
def placement (row column : Nat) (num : Int) : List Event :=
  let subgrid_row := row / SUBGRID_SIZE * SUBGRID_SIZE
  let subgrid_col := column / SUBGRID_SIZE * SUBGRID_SIZE
  [Event.wait (Sem.row row), Event.wait (Sem.column column),
   Event.wait (Sem.subgrid subgrid_row subgrid_col),
   Event.write row column num,
   Event.post (Sem.row row), Event.post (Sem.column column),
   Event.post (Sem.subgrid subgrid_row subgrid_col)]

/-- The digit loop again, with the events it produces: the placement, the
events of the recursive call, and the unlocked reset `puzzle[row][column] = 0`
after a failed call. -/
def digitLoopEv (recurse : Grid → Option (Int × Grid × List Event)) (row column : Nat) :
    List Int → Grid → Option (Int × Grid × List Event)
  | [], puzzle => some (0, puzzle, [])
  | num :: rest, puzzle =>
    if validityLoop puzzle row column num ≠ 0 then
      match recurse (puzzle.put row column num) with
      | none => none
      | some (r, puzzle1, evs) =>
        if r ≠ 0 then some (1, puzzle1, placement row column num ++ evs)
        else
          match digitLoopEv recurse row column rest (puzzle1.put row column 0) with
          | none => none
          | some (r2, puzzle2, evs2) =>
            some (r2, puzzle2,
              placement row column num ++ evs ++ Event.write row column 0 :: evs2)
    else digitLoopEv recurse row column rest puzzle

/-- The function `solveSudoku` again, with the events of the whole call: the
entry, what happens inside, and the return with its value. -/
def solveSudokuEv : Nat → Grid → Nat → Nat → Option (Int × Grid × List Event)
  | 0, _, _, _ => none
  | fuel + 1, puzzle, row, column =>
    if row = GRID_SIZE then some (1, puzzle, [Event.call row column, Event.ret 1])
    else if column = GRID_SIZE then
      match solveSudokuEv fuel puzzle (row + 1) 0 with
      | none => none
      | some (r, p, evs) => some (r, p, Event.call row column :: evs ++ [Event.ret r])
    else if puzzle.get row column ≠ 0 then
      match solveSudokuEv fuel puzzle row (column + 1) with
      | none => none
      | some (r, p, evs) => some (r, p, Event.call row column :: evs ++ [Event.ret r])
    else
      let nextRow := if column + 1 = GRID_SIZE then row + 1 else row
      let nextCol := if column + 1 = GRID_SIZE then 0 else column + 1
      match digitLoopEv (fun p => solveSudokuEv fuel p nextRow nextCol) row column
          digits puzzle with
      | none => none
      | some (r, p, evs) => some (r, p, Event.call row column :: evs ++ [Event.ret r])

/-- The values of `i` in `for (i = 0; i < GRID_SIZE; i += SUBGRID_SIZE)`. -/
def subgridSteps : List Nat := (List.range GRID_SIZE).filter (fun i => i % SUBGRID_SIZE = 0)

/-- The semaphores on which `initializeSemaphores()` calls `sem_init`, in order. -/
def initializeSemaphores : List Sem :=
  (List.range GRID_SIZE).flatMap (fun i => [Sem.row i, Sem.column i]) ++
  subgridSteps.flatMap (fun i => subgridSteps.map (fun j => Sem.subgrid i j))

/-- The semaphores on which `destroySemaphores()` calls `sem_destroy`, in order. -/
def destroySemaphores : List Sem :=
  (List.range GRID_SIZE).flatMap (fun i => [Sem.row i, Sem.column i]) ++
  subgridSteps.flatMap (fun i => subgridSteps.map (fun j => Sem.subgrid i j))

/-- Whether a semaphore is one of `subgrid_semaphores`. -/
def Sem.isSubgrid : Sem → Bool
  | Sem.subgrid _ _ => true
  | _ => false

/-- A stretch of the event log that is one of: an entry, a return, the unlocked
reset of a cell to 0, or a placement, which acquires the row lock, the column
lock and the block lock, writes a digit 1..9, and releases the row lock, the
column lock and the block lock. -/
def Segment (seg : List Event) : Prop :=
  (∃ r c, seg = [Event.call r c]) ∨ (∃ v, seg = [Event.ret v]) ∨
  (∃ r c, r < 9 ∧ c < 9 ∧ seg = [Event.write r c 0]) ∨
  (∃ r c num, r < 9 ∧ c < 9 ∧ 1 ≤ num ∧ num ≤ 9 ∧
    seg = [Event.wait (Sem.row r), Event.wait (Sem.column c),
      Event.wait (Sem.subgrid (r / 3 * 3) (c / 3 * 3)),
      Event.write r c num,
      Event.post (Sem.row r), Event.post (Sem.column c),
      Event.post (Sem.subgrid (r / 3 * 3) (c / 3 * 3))])

/-- The event log is a sequence of such stretches. -/
def Segmented (evs : List Event) : Prop :=
  ∃ segs : List (List Event), evs = segs.flatten ∧ ∀ seg ∈ segs, Segment seg

/-- The locks held along an event log, starting from `held`: a lock is acquired
only when not held and released only when held; at every entry and return of
`solveSudoku`, and at the end, no lock is held; a write happens with no lock
held or with the row, column and block lock of its cell held, acquired in
that order. -/
def lockDiscipline : List Sem → List Event → Prop
  | held, [] => held = []
  | held, Event.call _ _ :: rest => held = [] ∧ lockDiscipline [] rest
  | held, Event.ret _ :: rest => held = [] ∧ lockDiscipline [] rest
  | held, Event.wait s :: rest => s ∉ held ∧ lockDiscipline (held ++ [s]) rest
  | held, Event.post s :: rest => s ∈ held ∧ lockDiscipline (held.erase s) rest
  | held, Event.write r c _ :: rest =>
    (held = [] ∨ held = [Sem.row r, Sem.column c, Sem.subgrid (r / 3 * 3) (c / 3 * 3)]) ∧
      lockDiscipline held rest

/-! ## `loadSudoku` and `saveSudoku` -/

/-- The C function `isspace` on the characters of the input: space, and the
control characters 9..13 (tab, newline, vertical tab, form feed, return). -/
def isSpace (c : Char) : Bool := decide (c.toNat = 32 ∨ (9 ≤ c.toNat ∧ c.toNat ≤ 13))

/-- The test `buffer[j] >= '0' && buffer[j] <= '9'`. -/
def isDigitChar (c : Char) : Bool := decide ('0'.toNat ≤ c.toNat ∧ c.toNat ≤ '9'.toNat)

/-- The value `buffer[j] - '0'`. -/
def digitValue (c : Char) : Int := (c.toNat : Int) - ('0'.toNat : Int)

/-- The newline character written by `fprintf(file, "\n")`. -/
def newline : Char := Char.ofNat 10

/-- One `fscanf(file, "%s", buffer)`: white space is skipped, then the characters
up to the next white space (or the end of the input) form the token; `none`
when the input ends before a token starts (the call does not return 1).
The result is the token and the unread rest of the input. -/
def scanToken (input : List Char) : Option (List Char × List Char) :=
  let rest := input.dropWhile isSpace
  let token := rest.takeWhile (fun c => !isSpace c)
  if token = [] then none else some (token, rest.dropWhile (fun c => !isSpace c))

/-- The inner loop of `loadSudoku` (source lines 34-43) over the remaining
values of `j`: `buffer[j]` is the `j`-th character of the token, or the
terminating NUL right after it; `none` is the `exit(1)` on an invalid character. -/
def loadCells (token : List Char) : List Nat → Option (List Int)
  | [] => some []
  | j :: js =>
    if isDigitChar (token.getD j (Char.ofNat 0)) = true then
      match loadCells token js with
      | none => none
      | some cells => some (digitValue (token.getD j (Char.ofNat 0)) :: cells)
    else none

/-- How `loadSudoku` ends. -/
inductive LoadResult where
  /-- All nine rows were read: the function returns with `puzzle` filled. -/
  | loaded (puzzle : Grid)
  /-- One of the two `exit(1)` after the file was opened. -/
  | exit1
  /-- A token of more than 81 characters: `fscanf` writes past the 82-byte
  `buffer`, and the behaviour of the program is undefined. -/
  | overflow
deriving DecidableEq

/-- The outer loop of `loadSudoku` (source lines 27-44) for the remaining rows,
on the unread input. -/
def loadRows : Nat → List Char → LoadResult
  | 0, _ => LoadResult.loaded []
  | n + 1, input =>
    match scanToken input with
    | none => LoadResult.exit1
    | some (token, rest) =>
      if GRID_SIZE * GRID_SIZE + 1 ≤ token.length then LoadResult.overflow
      else
        match loadCells token (List.range GRID_SIZE) with
        | none => LoadResult.exit1
        | some cells =>
          match loadRows n rest with
          | LoadResult.loaded rows => LoadResult.loaded (cells :: rows)
          | LoadResult.exit1 => LoadResult.exit1
          | LoadResult.overflow => LoadResult.overflow

/-- The function `loadSudoku` on the contents of a file that could be opened. -/
def loadSudoku (input : List Char) : LoadResult := loadRows GRID_SIZE input

/-- The text written by `fprintf(file, "%d", v)`. -/
def formatInt (v : Int) : List Char := (toString v).toList

/-- The function `saveSudoku`: the text written to the output file. -/
def saveSudoku (puzzle : Grid) : List Char :=
  (List.range GRID_SIZE).flatMap (fun i =>
    (List.range GRID_SIZE).flatMap (fun j => formatInt (puzzle.get i j)) ++ [newline])

/-- How the program ends on the contents of its input file: `loadSudoku` exits,
or misbehaves, or returns and the coordinator runs on the loaded grid. -/
inductive ProgramEnd where
  | loadExit1
  | loadOverflow
  | coordinated (run : Option MainRun)
deriving DecidableEq

/-- The function `main` from line 188 on: `loadSudoku`, then the coordinator. -/
def program (input : List Char) : ProgramEnd :=
  match loadSudoku input with
  | LoadResult.loaded puzzle => ProgramEnd.coordinated (main puzzle)
  | LoadResult.exit1 => ProgramEnd.loadExit1
  | LoadResult.overflow => ProgramEnd.loadOverflow

/-- The text made of the given lines, each followed by a newline. -/
def textOf (lines : List (List Char)) : List Char :=
  lines.flatMap (fun l => l ++ [newline])

/-- The first `n` tokens of the input, as successive `fscanf` calls read them. -/
def tokensOf : Nat → List Char → List (List Char)
  | 0, _ => []
  | n + 1, input =>
    match scanToken input with
    | none => []
    | some (token, rest) => token :: tokensOf n rest

/-- A token that the inner loop accepts: at least 9 characters, the first 9 of
them digits. -/
def GoodToken (token : List Char) : Prop :=
  9 ≤ token.length ∧ ∀ c ∈ token.take 9, isDigitChar c = true

instance (token : List Char) : Decidable (GoodToken token) := by
  unfold GoodToken; infer_instance

/-- The row of cells read from an accepted token. -/
def rowOfToken (token : List Char) : List Int := (token.take 9).map digitValue

/-- Scenario 1 as nine lines of nine digits. -/
def scenario1Lines : List (List Char) :=
  [("123456780").toList, ("000000000").toList, ("000000000").toList,
    ("000000000").toList, ("000000000").toList, ("000000000").toList,
    ("000000000").toList, ("000000000").toList, ("000000000").toList]

/-- Scenario 1 as a text whose first line has a tenth character. -/
def longLineText : List Char :=
  textOf [("1234567800").toList, ("000000000").toList, ("000000000").toList,
    ("000000000").toList, ("000000000").toList, ("000000000").toList,
    ("000000000").toList, ("000000000").toList, ("000000000").toList]

/-- Scenario 1 as a text with a tenth line that holds no digit. -/
def trailingText : List Char :=
  textOf [("123456780").toList, ("000000000").toList, ("000000000").toList,
    ("000000000").toList, ("000000000").toList, ("000000000").toList,
    ("000000000").toList, ("000000000").toList, ("000000000").toList, ("x").toList]

/-- A text of nine lines of exactly nine digits: `lines` are its lines. -/
def WellFormedLines (lines : List (List Char)) : Prop :=
  lines.length = 9 ∧ ∀ l ∈ lines, l.length = 9 ∧ ∀ c ∈ l, isDigitChar c = true

instance (lines : List (List Char)) : Decidable (WellFormedLines lines) := by
  unfold WellFormedLines; infer_instance

/-- Scenario 1 as a text whose first line has only 8 characters. -/
def shortLineText : List Char :=
  textOf [("12345678").toList, ("000000000").toList, ("000000000").toList,
    ("000000000").toList, ("000000000").toList, ("000000000").toList,
    ("000000000").toList, ("000000000").toList, ("000000000").toList]

/-! ## Basic facts about reads and writes -/

theorem shaped_put {g : Grid} (hg : g.Shaped) (r c : Nat) (v : Int) : (g.put r c v).Shaped := by
  obtain ⟨h1, h2⟩ := hg
  refine ⟨by simp [Grid.put, h1], ?_⟩
  intro x hx
  unfold Grid.put at hx
  by_cases hr : r < g.length
  · rcases List.mem_or_eq_of_mem_set hx with h | h
    · exact h2 x h
    · subst h
      rw [List.length_set, List.getD_eq_getElem _ _ hr]
      exact h2 _ (List.getElem_mem _)
  · rw [List.set_eq_of_length_le (by omega)] at hx
    exact h2 x hx

theorem get_put {g : Grid} (hg : g.Shaped) {r c : Nat} (hr : r < 9) (hc : c < 9) (v : Int)
    (r' c' : Nat) :
    (g.put r c v).get r' c' = if r' = r ∧ c' = c then v else g.get r' c' := by
  have hlen : r < g.length := by rw [hg.1]; exact hr
  have hrow : (g[r]).length = 9 := hg.2 _ (List.getElem_mem _)
  unfold Grid.get Grid.put
  by_cases h1 : r' = r
  · subst h1
    by_cases h2 : c' = c
    · subst h2
      simp [List.getD_eq_getElem?_getD, List.getElem?_set, hlen, hrow, hc]
    · simp [List.getD_eq_getElem?_getD, List.getElem?_set, hlen, h2, Ne.symm h2]
  · simp [List.getD_eq_getElem?_getD, List.getElem?_set, h1, Ne.symm h1]

theorem Grid.ext_get {g h : Grid} (hg : g.Shaped) (hh : h.Shaped)
    (e : ∀ r c, r < 9 → c < 9 → g.get r c = h.get r c) : g = h := by
  apply List.ext_getElem (by rw [hg.1, hh.1])
  intro r h1 h2
  have hr : r < 9 := by rw [hg.1] at h1; exact h1
  have l1 : (g[r]).length = 9 := hg.2 _ (List.getElem_mem _)
  have l2 : (h[r]).length = 9 := hh.2 _ (List.getElem_mem _)
  apply List.ext_getElem (by rw [l1, l2])
  intro c h3 h4
  have hc : c < 9 := by rw [l1] at h3; exact h3
  have := e r c hr hc
  simpa [Grid.get, List.getD_eq_getElem?_getD, h1, h2, h3, h4] using this

theorem put_restore {g : Grid} (hg : g.Shaped) {r c : Nat} (hr : r < 9) (hc : c < 9)
    (h0 : g.get r c = 0) (v : Int) : (g.put r c v).put r c 0 = g := by
  apply Grid.ext_get (shaped_put (shaped_put hg _ _ _) _ _ _) hg
  intro r' c' _ _
  rw [get_put (shaped_put hg _ _ _) hr hc, get_put hg hr hc]
  by_cases h : r' = r ∧ c' = c
  · rw [if_pos h, h.1, h.2, h0]
  · rw [if_neg h, if_neg h]

/-! ## The validity check -/

theorem foldl_flag (P : Nat → Prop) [DecidablePred P] (l : List Nat) (v : Int) :
    l.foldl (fun valid i => if valid ≠ 0 then (if P i then 0 else valid) else valid) v
      = if v = 0 ∨ ∃ i ∈ l, P i then 0 else v := by
  induction l generalizing v with
  | nil => by_cases hv : v = 0 <;> simp [hv]
  | cons a l ih =>
    rw [List.foldl_cons, ih]
    by_cases hv : v = 0
    · simp [hv]
    · by_cases ha : P a
      · simp [hv, ha]
      · simp [hv, ha]

theorem validityLoop_eq (g : Grid) (row column : Nat) (num : Int) :
    (validityLoop g row column num = 0 ↔
      ∃ i, i < 9 ∧ (g.get row i = num ∨ g.get i column = num ∨
          g.get (blockCell row column i).1 (blockCell row column i).2 = num)) ∧
    (validityLoop g row column num = 0 ∨ validityLoop g row column num = 1) := by
  unfold validityLoop
  rw [foldl_flag (fun i => g.get row i = num ∨ g.get i column = num ∨
      g.get (blockCell row column i).1 (blockCell row column i).2 = num)]
  simp only [GRID_SIZE, List.mem_range, one_ne_zero, false_or]
  split_ifs with h
  · exact ⟨⟨fun _ => h, fun _ => rfl⟩, Or.inl rfl⟩
  · exact ⟨⟨fun e => absurd e one_ne_zero, fun e => absurd e h⟩, Or.inr rfl⟩

theorem blockCell_spec (row column r c : Nat) :
    (∃ i, i < 9 ∧ blockCell row column i = (r, c)) ↔
      (r / 3 = row / 3 ∧ c / 3 = column / 3) := by
  unfold blockCell
  simp only [SUBGRID_SIZE, Prod.mk.injEq]
  constructor
  · rintro ⟨i, hi, h1, h2⟩
    omega
  · rintro ⟨h1, h2⟩
    refine ⟨3 * (r % 3) + c % 3, ?_, ?_, ?_⟩ <;> omega

/-- The flag is nonzero exactly when `num` is met nowhere in the row, the column
or the block of `(row, column)`. -/
theorem valid_iff (g : Grid) {row column : Nat} (hr : row < 9) (hc : column < 9) (num : Int) :
    validityLoop g row column num ≠ 0 ↔
      ∀ r', r' < 9 → ∀ c', c' < 9 →
        (r' = row ∨ c' = column ∨ (r' / 3 = row / 3 ∧ c' / 3 = column / 3)) →
        g.get r' c' ≠ num := by
  rw [Ne, (validityLoop_eq g row column num).1]
  constructor
  · intro h r' hr' c' hc' hu e
    apply h
    rcases hu with hu | hu | hu
    · exact ⟨c', hc', Or.inl (by rw [← hu]; exact e)⟩
    · exact ⟨r', hr', Or.inr (Or.inl (by rw [← hu]; exact e))⟩
    · obtain ⟨i, hi, hb⟩ := (blockCell_spec row column r' c').2 hu
      exact ⟨i, hi, Or.inr (Or.inr (by rw [hb]; exact e))⟩
  · rintro h ⟨i, hi, e | e | e⟩
    · exact h row hr i hi (Or.inl rfl) e
    · exact h i hi column hc (Or.inr (Or.inl rfl)) e
    · have hb := (blockCell_spec row column
        (blockCell row column i).1 (blockCell row column i).2).1 ⟨i, hi, rfl⟩
      have h1 : (blockCell row column i).1 < 9 := by
        have := hb.1; omega
      have h2 : (blockCell row column i).2 < 9 := by
        have := hb.2; omega
      exact h _ h1 _ h2 (Or.inr (Or.inr hb)) e

theorem mem_digits (num : Int) : num ∈ digits ↔ 1 ≤ num ∧ num ≤ 9 := by
  simp only [digits, GRID_SIZE, List.mem_map, List.mem_range]
  constructor
  · rintro ⟨k, hk, rfl⟩
    omega
  · intro h
    exact ⟨(num - 1).toNat, by omega, by omega⟩

theorem Peer.symm {r c r' c' : Nat} (h : Peer r c r' c') : Peer r' c' r c := by
  unfold Peer at *
  omega

/-! ## The search -/

theorem fills_skip {g : Grid} {row col : Nat} (hr : row < 9) (hc : col < 9)
    (hne : g.get row col ≠ 0) (h : Grid) :
    Fills g (9 * row + col + 1) h ↔ Fills g (9 * row + col) h := by
  have key : ∀ r, r < 9 → ∀ c, c < 9 → g.get r c = 0 →
      (9 * row + col + 1 ≤ 9 * r + c ↔ 9 * row + col ≤ 9 * r + c) := by
    intro r _ c _ h0
    constructor
    · intro h1; omega
    · intro h1
      have : ¬ (r = row ∧ c = col) := by
        rintro ⟨rfl, rfl⟩; exact hne h0
      omega
  constructor
  · rintro ⟨hs, ha, hn⟩
    refine ⟨hs, ?_, ?_⟩
    · intro r hr' c hc' hcond
      apply ha r hr' c hc'
      rintro ⟨h1, h0⟩
      exact hcond ⟨(key r hr' c hc' h0).1 h1, h0⟩
    · intro r hr' c hc' h1 h0
      exact hn r hr' c hc' ((key r hr' c hc' h0).2 h1) h0
  · rintro ⟨hs, ha, hn⟩
    refine ⟨hs, ?_, ?_⟩
    · intro r hr' c hc' hcond
      apply ha r hr' c hc'
      rintro ⟨h1, h0⟩
      exact hcond ⟨(key r hr' c hc' h0).2 h1, h0⟩
    · intro r hr' c hc' h1 h0
      exact hn r hr' c hc' ((key r hr' c hc' h0).1 h1) h0

theorem fills_step_sound {g : Grid} (hg : g.Shaped) {row col : Nat} (hr : row < 9)
    (hc : col < 9) (h0 : g.get row col = 0) {num : Int} (hnum : 1 ≤ num ∧ num ≤ 9)
    (hv : validityLoop g row col num ≠ 0) {h : Grid}
    (hf : Fills (g.put row col num) (9 * row + col + 1) h) : Fills g (9 * row + col) h := by
  obtain ⟨hs, ha, hn⟩ := hf
  have hvalid := (valid_iff g hr hc num).1 hv
  have hcell : h.get row col = num := by
    rw [ha row hr col hc (by rintro ⟨h1, _⟩; omega), get_put hg hr hc, if_pos ⟨rfl, rfl⟩]
  have hother : ∀ r, r < 9 → ∀ c, c < 9 → ¬ (r = row ∧ c = col) →
      (g.put row col num).get r c = g.get r c := by
    intro r _ c _ hne
    rw [get_put hg hr hc, if_neg hne]
  refine ⟨hs, ?_, ?_⟩
  · intro r hr' c hc' hcond
    have hne : ¬ (r = row ∧ c = col) := by
      rintro ⟨rfl, rfl⟩; exact hcond ⟨le_refl _, h0⟩
    rw [← hother r hr' c hc' hne]
    apply ha r hr' c hc'
    rintro ⟨h1, h2⟩
    rw [hother r hr' c hc' hne] at h2
    exact hcond ⟨by omega, h2⟩
  · intro r hr' c hc' h1 hz
    by_cases hsame : r = row ∧ c = col
    · obtain ⟨rfl, rfl⟩ := hsame
      rw [hcell]
      refine ⟨hnum, ?_⟩
      intro r' hr2 c' hc2 hp
      rw [hcell]
      have hne : ¬ (r' = r ∧ c' = c) := by
        rintro ⟨rfl, rfl⟩
        unfold Peer at hp
        omega
      by_cases hnew : 9 * r + c + 1 ≤ 9 * r' + c' ∧ (g.put r c num).get r' c' = 0
      · have := (hn r' hr2 c' hc2 hnew.1 hnew.2).2 r hr c hc hp.symm
        rw [hcell] at this
        exact fun e => this e.symm
      · rw [ha r' hr2 c' hc2 hnew, hother r' hr2 c' hc2 hne]
        apply hvalid r' hr2 c' hc2
        unfold Peer at hp
        omega
    · have h2 : 9 * row + col + 1 ≤ 9 * r + c := by omega
      exact hn r hr' c hc' h2 (by rw [hother r hr' c hc' hsame]; exact hz)

theorem fills_step_complete {g : Grid} (hg : g.Shaped) {row col : Nat} (hr : row < 9)
    (hc : col < 9) (h0 : g.get row col = 0) {h : Grid} (hf : Fills g (9 * row + col) h) :
    (1 ≤ h.get row col ∧ h.get row col ≤ 9) ∧ validityLoop g row col (h.get row col) ≠ 0 ∧
      Fills (g.put row col (h.get row col)) (9 * row + col + 1) h := by
  obtain ⟨hs, ha, hn⟩ := hf
  obtain ⟨hrange, hpeer⟩ := hn row hr col hc (le_refl _) h0
  have hother : ∀ r, r < 9 → ∀ c, c < 9 → ¬ (r = row ∧ c = col) →
      (g.put row col (h.get row col)).get r c = g.get r c := by
    intro r _ c _ hne
    rw [get_put hg hr hc, if_neg hne]
  refine ⟨hrange, ?_, hs, ?_, ?_⟩
  · rw [valid_iff g hr hc]
    intro r' hr' c' hc' hu
    by_cases hz : g.get r' c' = 0
    · rw [hz]; omega
    · have hne : ¬ (r' = row ∧ c' = col) := by
        rintro ⟨rfl, rfl⟩; exact hz h0
      have hp : Peer row col r' c' := by
        unfold Peer; omega
      rw [← ha r' hr' c' hc' (fun hcond => hz hcond.2)]
      exact hpeer r' hr' c' hc' hp
  · intro r hr' c hc' hcond
    by_cases hsame : r = row ∧ c = col
    · obtain ⟨rfl, rfl⟩ := hsame
      rw [get_put hg hr hc, if_pos ⟨rfl, rfl⟩]
    · rw [hother r hr' c hc' hsame]
      apply ha r hr' c hc'
      rintro ⟨h1, h2⟩
      apply hcond
      refine ⟨by omega, ?_⟩
      rw [hother r hr' c hc' hsame]; exact h2
  · intro r hr' c hc' h1 hz
    have hsame : ¬ (r = row ∧ c = col) := by
      rintro ⟨rfl, rfl⟩; omega
    rw [hother r hr' c hc' hsame] at hz
    exact hn r hr' c hc' (by omega) hz

theorem digitLoop_post {recurse : Grid → Option (Int × Grid)} {row col : Nat}
    (hr : row < 9) (hc : col < 9) {g : Grid} (hg : g.Shaped) (h0 : g.get row col = 0)
    (hrec : ∀ p : Grid, p.Shaped → SearchPost p (9 * row + col + 1) (recurse p))
    (nums : List Int) :
    ∃ res g', digitLoop recurse row col nums g = some (res, g') ∧
      ((res = 0 ∧ g' = g ∧ ∀ num ∈ nums, validityLoop g row col num ≠ 0 →
          ¬ ∃ h, Fills (g.put row col num) (9 * row + col + 1) h) ∨
       (res = 1 ∧ ∃ num ∈ nums, validityLoop g row col num ≠ 0 ∧
          Fills (g.put row col num) (9 * row + col + 1) g')) := by
  induction nums with
  | nil =>
    exact ⟨0, g, rfl, Or.inl ⟨rfl, rfl, fun num hmem => absurd hmem (List.not_mem_nil _)⟩⟩
  | cons num rest ih =>
    obtain ⟨res, g', e, hpost⟩ := ih
    by_cases hv : validityLoop g row col num ≠ 0
    · obtain ⟨res1, g1, e1, hpost1⟩ := hrec (g.put row col num) (shaped_put hg _ _ _)
      rcases hpost1 with ⟨hres1, hg1, hnone⟩ | ⟨hres1, hfill⟩
      · subst hres1
        subst hg1
        refine ⟨res, g', ?_, ?_⟩
        · rw [digitLoop, if_pos hv, e1]
          simp only [ne_eq, not_true_eq_false, if_false]
          rw [put_restore hg hr hc h0]
          exact e
        · rcases hpost with ⟨h1, h2, h3⟩ | ⟨h1, n, hn1, hn2⟩
          · refine Or.inl ⟨h1, h2, ?_⟩
            intro n hn
            rcases List.mem_cons.1 hn with rfl | hn
            · exact fun _ => hnone
            · exact h3 n hn
          · exact Or.inr ⟨h1, n, List.mem_cons_of_mem _ hn1, hn2⟩
      · subst hres1
        refine ⟨1, g1, ?_, Or.inr ⟨rfl, num, List.mem_cons_self _ _, hv, hfill⟩⟩
        rw [digitLoop, if_pos hv, e1]
        simp
    · refine ⟨res, g', ?_, ?_⟩
      · rw [digitLoop, if_neg hv]
        exact e
      · rcases hpost with ⟨h1, h2, h3⟩ | ⟨h1, n, hn1, hn2⟩
        · refine Or.inl ⟨h1, h2, ?_⟩
          intro n hn
          rcases List.mem_cons.1 hn with rfl | hn
          · exact fun hv' => absurd hv' hv
          · exact h3 n hn
        · exact Or.inr ⟨h1, n, List.mem_cons_of_mem _ hn1, hn2⟩

theorem fills_end (g : Grid) (hg : g.Shaped) (k : Nat) (hk : 81 ≤ k) : Fills g k g := by
  refine ⟨hg, fun _ _ _ _ _ => rfl, ?_⟩
  intro r hr c hc h1
  omega

/-- The search from `(row, col)`, given enough recursion depth, returns: with 0
and the entry grid when the empty cells from there on cannot be filled, with 1
and a filling otherwise. -/
theorem solve_post : ∀ (fuel : Nat) (g : Grid) (row col : Nat), g.Shaped → row ≤ 9 →
    col ≤ 9 → fuelFor row col ≤ fuel →
    SearchPost g (9 * row + col) (solveSudoku fuel g row col) := by
  intro fuel
  induction fuel with
  | zero =>
    intro g row col _ _ hc hf
    unfold fuelFor at hf
    omega
  | succ n ih =>
    intro g row col hg hr hc hf
    unfold fuelFor at hf
    rw [solveSudoku]
    by_cases h9 : row = 9
    · rw [if_pos (by rw [h9]; rfl)]
      exact ⟨1, g, rfl, Or.inr ⟨rfl, fills_end g hg _ (by omega)⟩⟩
    · rw [if_neg (by simpa [GRID_SIZE] using h9)]
      by_cases hc9 : col = 9
      · rw [if_pos (by rw [hc9]; rfl)]
        have := ih g (row + 1) 0 hg (by omega) (by omega) (by unfold fuelFor; omega)
        have e : 9 * (row + 1) + 0 = 9 * row + col := by omega
        rw [e] at this
        exact this
      · rw [if_neg (by simpa [GRID_SIZE] using hc9)]
        have hr' : row < 9 := by omega
        have hc' : col < 9 := by omega
        by_cases hz : g.get row col ≠ 0
        · rw [if_pos hz]
          obtain ⟨res, g', e, hpost⟩ :=
            ih g row (col + 1) hg hr (by omega) (by unfold fuelFor; omega)
          refine ⟨res, g', e, ?_⟩
          have e2 : 9 * row + (col + 1) = 9 * row + col + 1 := by omega
          rw [e2] at hpost
          rcases hpost with ⟨h1, h2, h3⟩ | ⟨h1, h2⟩
          · refine Or.inl ⟨h1, h2, ?_⟩
            rintro ⟨h, hf'⟩
            exact h3 ⟨h, (fills_skip hr' hc' hz h).2 hf'⟩
          · exact Or.inr ⟨h1, (fills_skip hr' hc' hz g').1 h2⟩
        · rw [if_neg hz]
          have h0 : g.get row col = 0 := not_not.1 hz
          have hrec : ∀ p : Grid, p.Shaped → SearchPost p (9 * row + col + 1)
              (solveSudoku n p (if col + 1 = GRID_SIZE then row + 1 else row)
                (if col + 1 = GRID_SIZE then 0 else col + 1)) := by
            intro p hp
            by_cases h8 : col + 1 = 9
            · rw [if_pos (by rw [h8]; rfl), if_pos (by rw [h8]; rfl)]
              have := ih p (row + 1) 0 hp (by omega) (by omega) (by unfold fuelFor; omega)
              have e : 9 * (row + 1) + 0 = 9 * row + col + 1 := by omega
              rw [e] at this
              exact this
            · rw [if_neg (by simpa [GRID_SIZE] using h8),
                if_neg (by simpa [GRID_SIZE] using h8)]
              have := ih p row (col + 1) hp hr (by omega) (by unfold fuelFor; omega)
              have e : 9 * row + (col + 1) = 9 * row + col + 1 := by omega
              rw [e] at this
              exact this
          obtain ⟨res, g', e, hpost⟩ := digitLoop_post hr' hc' hg h0 hrec digits
          refine ⟨res, g', e, ?_⟩
          rcases hpost with ⟨h1, h2, h3⟩ | ⟨h1, num, hn1, hn2, hn3⟩
          · refine Or.inl ⟨h1, h2, ?_⟩
            rintro ⟨h, hf'⟩
            obtain ⟨hrange, hvalid, hfill⟩ := fills_step_complete hg hr' hc' h0 hf'
            exact h3 _ ((mem_digits _).2 hrange) hvalid ⟨h, hfill⟩
          · exact Or.inr ⟨h1, fills_step_sound hg hr' hc' h0 ((mem_digits _).1 hn1) hn2 hn3⟩

theorem digitLoop_mono {rec1 rec2 : Grid → Option (Int × Grid)}
    (hrec : ∀ p x, rec1 p = some x → rec2 p = some x) (row col : Nat) (nums : List Int) :
    ∀ (g : Grid) (y : Int × Grid), digitLoop rec1 row col nums g = some y →
      digitLoop rec2 row col nums g = some y := by
  induction nums with
  | nil => intro g y h; exact h
  | cons num rest ih =>
    intro g y h
    rw [digitLoop] at h ⊢
    by_cases hv : validityLoop g row col num ≠ 0
    · rw [if_pos hv] at h ⊢
      cases e : rec1 (g.put row col num) with
      | none => rw [e] at h; cases h
      | some x =>
        rw [e] at h
        rw [hrec _ _ e]
        obtain ⟨r, p1⟩ := x
        by_cases hres : r ≠ 0
        · simp only [hres, ne_eq, not_false_eq_true, if_true] at h ⊢
          exact h
        · simp only [hres, if_false] at h ⊢
          exact ih _ _ h
    · rw [if_neg hv] at h ⊢
      exact ih _ _ h

theorem solve_mono_succ : ∀ (n : Nat) (g : Grid) (row col : Nat) (x : Int × Grid),
    solveSudoku n g row col = some x → solveSudoku (n + 1) g row col = some x := by
  intro n
  induction n with
  | zero => intro g row col x h; rw [solveSudoku] at h; cases h
  | succ n ih =>
    intro g row col x h
    rw [solveSudoku] at h ⊢
    by_cases h9 : row = GRID_SIZE
    · rw [if_pos h9] at h ⊢; exact h
    · rw [if_neg h9] at h ⊢
      by_cases hc9 : col = GRID_SIZE
      · rw [if_pos hc9] at h ⊢; exact ih _ _ _ _ h
      · rw [if_neg hc9] at h ⊢
        by_cases hz : g.get row col ≠ 0
        · rw [if_pos hz] at h ⊢; exact ih _ _ _ _ h
        · rw [if_neg hz] at h ⊢
          exact digitLoop_mono (fun p y hy => ih p _ _ y hy) row col digits g x h

/-- More recursion depth does not change a result. -/
theorem solve_mono {n m : Nat} (hnm : n ≤ m) {g : Grid} {row col : Nat} {x : Int × Grid}
    (h : solveSudoku n g row col = some x) : solveSudoku m g row col = some x := by
  induction hnm with
  | refl => exact h
  | step _ ih => exact solve_mono_succ _ _ _ _ _ ih

theorem fills_consistent {g : Grid} (hcons : Consistent g) {k : Nat} {h : Grid}
    (hf : Fills g k h) : Consistent h := by
  obtain ⟨_, ha, hn⟩ := hf
  intro r hr c hc hnz r' hr' c' hc' hp
  by_cases h1 : k ≤ 9 * r + c ∧ g.get r c = 0
  · exact (hn r hr c hc h1.1 h1.2).2 r' hr' c' hc' hp
  · by_cases h2 : k ≤ 9 * r' + c' ∧ g.get r' c' = 0
    · exact fun e => (hn r' hr' c' hc' h2.1 h2.2).2 r hr c hc hp.symm e.symm
    · rw [ha r hr c hc h1, ha r' hr' c' hc' h2]
      rw [ha r hr c hc h1] at hnz
      exact hcons r hr c hc hnz r' hr' c' hc' hp

theorem atOrAfter_iff {row col r c : Nat} (hc : col < 9) (hc' : c < 9) :
    AtOrAfter row col r c ↔ 9 * row + col ≤ 9 * r + c := by
  unfold AtOrAfter
  omega

theorem fills_iff_assigned (g : Grid) {row col : Nat} (hc : col < 9) (h : Grid) :
    Fills g (9 * row + col) h ↔ Assigned g row col h := by
  unfold Fills Assigned
  constructor
  · rintro ⟨hs, ha, hn⟩
    refine ⟨hs, ?_, ?_⟩
    · intro r hr c hc' hcond
      exact ha r hr c hc' (fun hh => hcond ⟨(atOrAfter_iff hc hc').2 hh.1, hh.2⟩)
    · intro r hr c hc' h1 h0
      exact hn r hr c hc' ((atOrAfter_iff hc hc').1 h1) h0
  · rintro ⟨hs, ha, hn⟩
    refine ⟨hs, ?_, ?_⟩
    · intro r hr c hc' hcond
      exact ha r hr c hc' (fun hh => hcond ⟨(atOrAfter_iff hc hc').1 hh.1, hh.2⟩)
    · intro r hr c hc' h1 h0
      exact hn r hr c hc' ((atOrAfter_iff hc hc').2 h1) h0

theorem check_eq_one_iff (g : Grid) :
    check g = 1 ↔ ∀ r, r < 9 → ∀ c, c < 9 → g.get r c ≠ 0 := by
  unfold check
  split_ifs with h
  · simp only [List.all_eq_true, List.mem_range, decide_eq_true_eq] at h
    exact ⟨fun _ => h, fun _ => rfl⟩
  · simp only [List.all_eq_true, List.mem_range, decide_eq_true_eq] at h
    exact ⟨fun e => absurd e (by decide), fun e => absurd e h⟩

theorem check_ne_zero_iff (g : Grid) : check g ≠ 0 ↔ check g = 1 := by
  unfold check
  split_ifs <;> simp

/-- A filling that leaves no cell empty, of a grid without duplicates, is a valid
completion of that grid. -/
theorem fills_valid {g : Grid} (hrange : g.InRange) (hcons : Consistent g) {k : Nat}
    {h : Grid} (hf : Fills g k h) (hfull : ∀ r, r < 9 → ∀ c, c < 9 → h.get r c ≠ 0) :
    ValidCompletion g h := by
  have hch := fills_consistent hcons hf
  obtain ⟨hs, ha, hn⟩ := hf
  refine ⟨hs, ?_, ?_⟩
  · intro r hr c hc hnz
    exact ha r hr c hc (fun hh => hnz hh.2)
  · intro r hr c hc
    refine ⟨?_, hch r hr c hc (hfull r hr c hc)⟩
    by_cases h1 : k ≤ 9 * r + c ∧ g.get r c = 0
    · exact (hn r hr c hc h1.1 h1.2).1
    · have e := ha r hr c hc h1
      have := hfull r hr c hc
      have := hrange r hr c hc
      omega

theorem digitLoopLog_post {recLog : Grid → Option (Int × Grid × List (Nat × Nat))}
    {recurse : Grid → Option (Int × Grid)} (Q : Nat × Nat → Prop)
    (hrec : ∀ p, ∃ res g' calls, recLog p = some (res, g', calls) ∧
      recurse p = some (res, g') ∧ ∀ rc ∈ calls, Q rc)
    (row col : Nat) (nums : List Int) :
    ∀ g : Grid, ∃ res g' calls, digitLoopLog recLog row col nums g = some (res, g', calls) ∧
      digitLoop recurse row col nums g = some (res, g') ∧ ∀ rc ∈ calls, Q rc := by
  induction nums with
  | nil => intro g; exact ⟨0, g, [], rfl, rfl, fun rc hrc => absurd hrc (List.not_mem_nil _)⟩
  | cons num rest ih =>
    intro g
    rw [digitLoopLog, digitLoop]
    by_cases hv : validityLoop g row col num ≠ 0
    · rw [if_pos hv, if_pos hv]
      obtain ⟨res1, g1, calls1, e1, e2, hq1⟩ := hrec (g.put row col num)
      rw [e1, e2]
      by_cases hres : res1 ≠ 0
      · refine ⟨1, g1, calls1, ?_, ?_, hq1⟩ <;> simp [hres]
      · obtain ⟨res2, g2, calls2, e3, e4, hq2⟩ := ih (g1.put row col 0)
        refine ⟨res2, g2, calls1 ++ calls2, ?_, ?_, ?_⟩
        · simp only [hres, if_false]
          rw [e3]
        · simp only [hres, if_false]
          exact e4
        · intro rc hrc
          rcases List.mem_append.1 hrc with h | h
          · exact hq1 rc h
          · exact hq2 rc h
    · rw [if_neg hv, if_neg hv]
      exact ih g

theorem solveSudokuLog_succ (fuel : Nat) (puzzle : Grid) (row column : Nat) :
    solveSudokuLog (fuel + 1) puzzle row column =
      if row = GRID_SIZE then some (1, puzzle, [(row, column)])
      else if column = GRID_SIZE then
        match solveSudokuLog fuel puzzle (row + 1) 0 with
        | none => none
        | some (r, p, calls) => some (r, p, (row, column) :: calls)
      else if puzzle.get row column ≠ 0 then
        match solveSudokuLog fuel puzzle row (column + 1) with
        | none => none
        | some (r, p, calls) => some (r, p, (row, column) :: calls)
      else
        match digitLoopLog
            (fun p => solveSudokuLog fuel p (if column + 1 = GRID_SIZE then row + 1 else row)
              (if column + 1 = GRID_SIZE then 0 else column + 1))
            row column digits puzzle with
        | none => none
        | some (r, p, calls) => some (r, p, (row, column) :: calls) := rfl

theorem solveLog_post : ∀ (fuel : Nat) (g : Grid) (row col : Nat), row ≤ 9 → col ≤ 9 →
    fuelFor row col ≤ fuel →
    ∃ res g' rest, solveSudokuLog fuel g row col = some (res, g', (row, col) :: rest) ∧
      solveSudoku fuel g row col = some (res, g') ∧
      ∀ rc ∈ rest, rc.1 ≤ 9 ∧ rc.2 ≤ 9 ∧ fuelFor rc.1 rc.2 < fuelFor row col := by
  intro fuel
  induction fuel with
  | zero =>
    intro g row col _ hc hf
    unfold fuelFor at hf
    omega
  | succ n ih =>
    intro g row col hr hc hf
    have sub : ∀ (p : Grid) (row' col' : Nat), row' ≤ 9 → col' ≤ 9 →
        fuelFor row' col' < fuelFor row col →
        ∃ res g' calls, solveSudokuLog n p row' col' = some (res, g', calls) ∧
          solveSudoku n p row' col' = some (res, g') ∧
          ∀ rc ∈ calls, rc.1 ≤ 9 ∧ rc.2 ≤ 9 ∧ fuelFor rc.1 rc.2 < fuelFor row col := by
      intro p row' col' hr' hc' hlt
      obtain ⟨res, g', rest, e1, e2, hq⟩ := ih p row' col' hr' hc' (by omega)
      refine ⟨res, g', _, e1, e2, ?_⟩
      intro rc hrc
      rcases List.mem_cons.1 hrc with rfl | hrc
      · exact ⟨hr', hc', hlt⟩
      · have := hq rc hrc
        exact ⟨this.1, this.2.1, by omega⟩
    rw [solveSudokuLog_succ, solveSudoku]
    by_cases h9 : row = GRID_SIZE
    · rw [if_pos h9, if_pos h9]
      exact ⟨1, g, [], rfl, rfl, fun rc hrc => absurd hrc (List.not_mem_nil _)⟩
    · rw [if_neg h9, if_neg h9]
      unfold GRID_SIZE at h9
      by_cases hc9 : col = GRID_SIZE
      · rw [if_pos hc9, if_pos hc9]
        unfold GRID_SIZE at hc9
        obtain ⟨res, g', calls, e1, e2, hq⟩ :=
          sub g (row + 1) 0 (by omega) (by omega) (by unfold fuelFor; omega)
        rw [e1]
        exact ⟨res, g', calls, rfl, e2, hq⟩
      · rw [if_neg hc9, if_neg hc9]
        unfold GRID_SIZE at hc9
        by_cases hz : g.get row col ≠ 0
        · rw [if_pos hz, if_pos hz]
          obtain ⟨res, g', calls, e1, e2, hq⟩ :=
            sub g row (col + 1) hr (by omega) (by unfold fuelFor; omega)
          rw [e1]
          exact ⟨res, g', calls, rfl, e2, hq⟩
        · rw [if_neg hz, if_neg hz]
          have hnext : (if col + 1 = GRID_SIZE then row + 1 else row) ≤ 9 ∧
              (if col + 1 = GRID_SIZE then 0 else col + 1) ≤ 9 ∧
              fuelFor (if col + 1 = GRID_SIZE then row + 1 else row)
                (if col + 1 = GRID_SIZE then 0 else col + 1) < fuelFor row col := by
            unfold fuelFor GRID_SIZE
            split_ifs <;> omega
          obtain ⟨res, g', calls, e1, e2, hq⟩ :=
            digitLoopLog_post
              (fun rc => rc.1 ≤ 9 ∧ rc.2 ≤ 9 ∧ fuelFor rc.1 rc.2 < fuelFor row col)
              (fun p => sub p _ _ hnext.1 hnext.2.1 hnext.2.2) row col digits g
          rw [e1]
          exact ⟨res, g', calls, rfl, e2, hq⟩

/-! ## The claims about `solveSudoku` -/

/-- C1 (soundness of solveSudoku): on a 9x9 grid in which no filled cell shares
its digit with another cell of its row, column or block, and for every start
with `row ≤ 9` and `col ≤ 9`, the call returns (0 or 1) and the grid it leaves
behind again has that property. -/
theorem solveSudoku_sound (g : Grid) (hg : g.Shaped) (hcons : Consistent g) (row col : Nat)
    (hr : row ≤ 9) (hc : col ≤ 9) (fuel : Nat) (hf : fuelFor row col ≤ fuel) :
    ∃ res g', solveSudoku fuel g row col = some (res, g') ∧ (res = 0 ∨ res = 1) ∧
      Consistent g' := by
  obtain ⟨res, g', e, hpost⟩ := solve_post fuel g row col hg hr hc hf
  refine ⟨res, g', e, ?_⟩
  rcases hpost with ⟨h1, h2, _⟩ | ⟨h1, h2⟩
  · exact ⟨Or.inl h1, by rw [h2]; exact hcons⟩
  · exact ⟨Or.inr h1, fills_consistent hcons h2⟩

theorem solveSudoku_sound_witness :
    ∃ res g', solveSudoku 110 scenario1 0 8 = some (res, g') ∧ (res = 0 ∨ res = 1) ∧
      Consistent g' :=
  solveSudoku_sound scenario1 (by decide) (by decide!) 0 8 (by decide) (by decide) 110
    (by decide)

/-- C2 (search correctness of solveSudoku): on a 9x9 grid and for a start cell
with `row, col` in 0..8, the call returns 1 or 0; it returns 1 exactly when the
empty cells at or after the start can be given digits 1..9 so that no newly
filled cell shares its digit with another cell of its row, column or block
(and then the grid left behind is such an assignment), and 0 exactly when no
such assignment exists. -/
theorem solveSudoku_search (g : Grid) (hg : g.Shaped) (row col : Nat) (hr : row < 9)
    (hc : col < 9) (fuel : Nat) (hf : fuelFor row col ≤ fuel) :
    ∃ res g', solveSudoku fuel g row col = some (res, g') ∧ (res = 1 ∨ res = 0) ∧
      (res = 1 ↔ ∃ h, Assigned g row col h) ∧ (res = 0 ↔ ¬ ∃ h, Assigned g row col h) ∧
      (res = 1 → Assigned g row col g') := by
  obtain ⟨res, g', e, hpost⟩ := solve_post fuel g row col hg (le_of_lt hr) (le_of_lt hc) hf
  refine ⟨res, g', e, ?_⟩
  rcases hpost with ⟨h1, _, h3⟩ | ⟨h1, h2⟩
  · have hno : ¬ ∃ h, Assigned g row col h := by
      rintro ⟨h, ha⟩
      exact h3 ⟨h, (fills_iff_assigned g hc h).2 ha⟩
    subst h1
    exact ⟨Or.inr rfl, ⟨fun e0 => absurd e0 (by decide), fun ha => absurd ha hno⟩,
      ⟨fun _ => hno, fun _ => rfl⟩, fun e0 => absurd e0 (by decide)⟩
  · have ha : Assigned g row col g' := (fills_iff_assigned g hc g').1 h2
    subst h1
    exact ⟨Or.inl rfl, ⟨fun _ => ⟨g', ha⟩, fun _ => rfl⟩,
      ⟨fun e0 => absurd e0 (by decide), fun hno => absurd ⟨g', ha⟩ hno⟩, fun _ => ha⟩

theorem solveSudoku_search_witness :
    ∃ res g', solveSudoku 110 scenario1 0 8 = some (res, g') ∧ (res = 1 ∨ res = 0) ∧
      (res = 1 ↔ ∃ h, Assigned scenario1 0 8 h) ∧
      (res = 0 ↔ ¬ ∃ h, Assigned scenario1 0 8 h) ∧
      (res = 1 → Assigned scenario1 0 8 g') :=
  solveSudoku_search scenario1 (by decide) 0 8 (by decide) (by decide) 110 (by decide)

theorem lastCellOpen_cells : ∀ r, r < 9 → ∀ c, c < 9 → ¬ (r = 8 ∧ c = 8) →
    lastCellOpen.get r c ≠ 0 ∧ lastCellOpen.get r c = scenario1Solved.get r c := by
  decide!

theorem lastCellOpen_unique (h : Grid) (hv : ValidCompletion lastCellOpen h) :
    h = scenario1Solved := by
  obtain ⟨hs, ha, hv⟩ := hv
  apply Grid.ext_get hs (by decide)
  intro r c hr hc
  by_cases hlast : r = 8 ∧ c = 8
  · obtain ⟨rfl, rfl⟩ := hlast
    obtain ⟨hrange, hp⟩ := hv 8 (by decide) 8 (by decide)
    have p0 := hp 8 (by decide) 0 (by decide) (by decide)
    have p1 := hp 8 (by decide) 1 (by decide) (by decide)
    have p2 := hp 8 (by decide) 2 (by decide) (by decide)
    have p3 := hp 8 (by decide) 3 (by decide) (by decide)
    have p4 := hp 8 (by decide) 4 (by decide) (by decide)
    have p5 := hp 8 (by decide) 5 (by decide) (by decide)
    have p6 := hp 8 (by decide) 6 (by decide) (by decide)
    have p7 := hp 8 (by decide) 7 (by decide) (by decide)
    rw [ha 8 (by decide) 0 (by decide) (by decide)] at p0
    rw [ha 8 (by decide) 1 (by decide) (by decide)] at p1
    rw [ha 8 (by decide) 2 (by decide) (by decide)] at p2
    rw [ha 8 (by decide) 3 (by decide) (by decide)] at p3
    rw [ha 8 (by decide) 4 (by decide) (by decide)] at p4
    rw [ha 8 (by decide) 5 (by decide) (by decide)] at p5
    rw [ha 8 (by decide) 6 (by decide) (by decide)] at p6
    rw [ha 8 (by decide) 7 (by decide) (by decide)] at p7
    have e0 : lastCellOpen.get 8 0 = 9 := by decide
    have e1 : lastCellOpen.get 8 1 = 7 := by decide
    have e2 : lastCellOpen.get 8 2 = 8 := by decide
    have e3 : lastCellOpen.get 8 3 = 5 := by decide
    have e4 : lastCellOpen.get 8 4 = 3 := by decide
    have e5 : lastCellOpen.get 8 5 = 1 := by decide
    have e6 : lastCellOpen.get 8 6 = 6 := by decide
    have e7 : lastCellOpen.get 8 7 = 4 := by decide
    have e8 : scenario1Solved.get 8 8 = 2 := by decide
    rw [e0] at p0
    rw [e1] at p1
    rw [e2] at p2
    rw [e3] at p3
    rw [e4] at p4
    rw [e5] at p5
    rw [e6] at p6
    rw [e7] at p7
    rw [e8]
    omega
  · obtain ⟨hz, he⟩ := lastCellOpen_cells r hr c hc hlast
    rw [ha r hr c hc hz, he]

theorem scenario1_eval :
    solveSudoku (fuelFor 0 8) scenario1 0 8 = some (1, scenario1Solved) := by
  decide!

/-- C7 (unique-solution determinism): for a 9x9 puzzle with entries in 0..9 and
no duplicate among its filled cells that has exactly one valid completion `S`,
and for every empty start cell, the call returns, and if it returns 1 and
`check` passes on the grid left behind then that grid is `S`. -/
theorem unique_solution_determinism (g S : Grid) (hg : g.Shaped) (hrange : g.InRange)
    (hcons : Consistent g)
    (hS : ValidCompletion g S ∧ ∀ h, ValidCompletion g h → h = S) (row col : Nat)
    (hcell : row < 9 ∧ col < 9 ∧ g.get row col = 0) (fuel : Nat)
    (hf : fuelFor row col ≤ fuel) :
    ∃ res g', solveSudoku fuel g row col = some (res, g') ∧
      (res = 1 → check g' = 1 → g' = S ∧ ValidCompletion g g') := by
  obtain ⟨res, g', e, hpost⟩ :=
    solve_post fuel g row col hg (le_of_lt hcell.1) (le_of_lt hcell.2.1) hf
  refine ⟨res, g', e, ?_⟩
  intro h1 hchk
  rcases hpost with ⟨h0, _, _⟩ | ⟨_, hfill⟩
  · rw [h0] at h1
    exact absurd h1 (by decide)
  · have hvalid := fills_valid hrange hcons hfill ((check_eq_one_iff g').1 hchk)
    exact ⟨hS.2 g' hvalid, hvalid⟩

theorem unique_solution_determinism_witness :
    ∃ res g', solveSudoku 110 lastCellOpen 8 8 = some (res, g') ∧
      (res = 1 → check g' = 1 → g' = scenario1Solved ∧ ValidCompletion lastCellOpen g') :=
  unique_solution_determinism lastCellOpen scenario1Solved (by decide) (by decide!)
    (by decide!) ⟨by decide!, lastCellOpen_unique⟩ 8 8 (by decide) 110 (by decide)

/-- C8 (concrete scenario 1): on the grid whose row 0 is 1,2,3,4,5,6,7,8,0 and
whose other cells are 0, the call started at `(0, 8)` returns 1; the grid left
behind has 9 in cell `(0, 8)`, row 0 equal to 1..9, every cell a digit 1..9
with no digit repeated in a row, column or block, and the cells given in the
input unchanged. -/
theorem scenario1_solved (fuel : Nat) (hf : fuelFor 0 8 ≤ fuel) :
    solveSudoku fuel scenario1 0 8 = some (1, scenario1Solved) ∧
      scenario1Solved.get 0 8 = 9 ∧
      List.getD scenario1Solved 0 [] = [1, 2, 3, 4, 5, 6, 7, 8, 9] ∧
      countZeros scenario1 = 73 ∧ countZeros scenario1Solved = 0 ∧
      ValidCompletion scenario1 scenario1Solved :=
  ⟨solve_mono hf scenario1_eval, by decide, by decide, by decide!, by decide!, by decide!⟩

theorem scenario1_solved_witness :
    solveSudoku 110 scenario1 0 8 = some (1, scenario1Solved) ∧
      scenario1Solved.get 0 8 = 9 ∧
      List.getD scenario1Solved 0 [] = [1, 2, 3, 4, 5, 6, 7, 8, 9] ∧
      countZeros scenario1 = 73 ∧ countZeros scenario1Solved = 0 ∧
      ValidCompletion scenario1 scenario1Solved :=
  scenario1_solved 110 (by decide)

/-- C9 (constraint checker): for a cell with `row, col` in 0..8 and any `num`,
the flag computed by the nine-step loop is 0 or 1; it is 0 exactly when `num`
occurs in row `row`, in column `col` or in the 3x3 block of the cell; the index
map `i -> (row/3*3 + i/3, col/3*3 + i%3)`, `i = 0..8`, is one-to-one onto the
nine cells of that block; and one turn of the digit loop with a rejected `num`
hands the grid on unchanged. -/
theorem validityLoop_correct (g : Grid) (row col : Nat) (num : Int) (hr : row < 9)
    (hc : col < 9) :
    (validityLoop g row col num = 0 ∨ validityLoop g row col num = 1) ∧
    (validityLoop g row col num = 0 ↔
      (∃ c, c < 9 ∧ g.get row c = num) ∨ (∃ r, r < 9 ∧ g.get r col = num) ∨
      (∃ r c, r < 9 ∧ c < 9 ∧ r / 3 = row / 3 ∧ c / 3 = col / 3 ∧ g.get r c = num)) ∧
    (∀ r c, (∃ i, i < 9 ∧ blockCell row col i = (r, c)) ↔
      (r < 9 ∧ c < 9 ∧ r / 3 = row / 3 ∧ c / 3 = col / 3)) ∧
    (∀ i j, i < 9 → j < 9 → blockCell row col i = blockCell row col j → i = j) ∧
    (∀ recurse : Grid → Option (Int × Grid), validityLoop g row col num = 0 →
      digitLoop recurse row col [num] g = some (0, g)) := by
  have hblock : ∀ r c, (∃ i, i < 9 ∧ blockCell row col i = (r, c)) ↔
      (r < 9 ∧ c < 9 ∧ r / 3 = row / 3 ∧ c / 3 = col / 3) := by
    intro r c
    rw [blockCell_spec]
    constructor
    · rintro ⟨h1, h2⟩
      exact ⟨by omega, by omega, h1, h2⟩
    · rintro ⟨_, _, h1, h2⟩
      exact ⟨h1, h2⟩
  refine ⟨(validityLoop_eq g row col num).2, ?_, hblock, ?_, ?_⟩
  · rw [(validityLoop_eq g row col num).1]
    constructor
    · rintro ⟨i, hi, e | e | e⟩
      · exact Or.inl ⟨i, hi, e⟩
      · exact Or.inr (Or.inl ⟨i, hi, e⟩)
      · obtain ⟨h1, h2, h3, h4⟩ := (hblock _ _).1 ⟨i, hi, rfl⟩
        exact Or.inr (Or.inr ⟨_, _, h1, h2, h3, h4, e⟩)
    · rintro (⟨c, hc', e⟩ | ⟨r, hr', e⟩ | ⟨r, c, hr', hc', h1, h2, e⟩)
      · exact ⟨c, hc', Or.inl e⟩
      · exact ⟨r, hr', Or.inr (Or.inl e)⟩
      · obtain ⟨i, hi, hb⟩ := (hblock r c).2 ⟨hr', hc', h1, h2⟩
        exact ⟨i, hi, Or.inr (Or.inr (by rw [hb]; exact e))⟩
  · intro i j hi hj hij
    unfold blockCell at hij
    simp only [SUBGRID_SIZE, Prod.mk.injEq] at hij
    omega
  · intro recurse h0
    rw [digitLoop, if_neg (not_not.2 h0), digitLoop]

theorem validityLoop_correct_witness :
    (validityLoop scenario1 0 8 5 = 0 ∨ validityLoop scenario1 0 8 5 = 1) ∧
    (validityLoop scenario1 0 8 5 = 0 ↔
      (∃ c, c < 9 ∧ scenario1.get 0 c = 5) ∨ (∃ r, r < 9 ∧ scenario1.get r 8 = 5) ∨
      (∃ r c, r < 9 ∧ c < 9 ∧ r / 3 = 0 / 3 ∧ c / 3 = 8 / 3 ∧ scenario1.get r c = 5)) ∧
    (∀ r c, (∃ i, i < 9 ∧ blockCell 0 8 i = (r, c)) ↔
      (r < 9 ∧ c < 9 ∧ r / 3 = 0 / 3 ∧ c / 3 = 8 / 3)) ∧
    (∀ i j, i < 9 → j < 9 → blockCell 0 8 i = blockCell 0 8 j → i = j) ∧
    (∀ recurse : Grid → Option (Int × Grid), validityLoop scenario1 0 8 5 = 0 →
      digitLoop recurse 0 8 [5] scenario1 = some (0, scenario1)) :=
  validityLoop_correct scenario1 0 8 5 (by decide) (by decide)

/-- C10 (termination): for every grid and every start with `row ≤ 9` and
`col ≤ 9`, a recursion depth of `fuelFor row col` suffices for the call to
return; the logged invocations start with `(row, col)`, and every further one
has its row and column within 0..9 and lies strictly closer to the end of the
scan. -/
theorem solveSudoku_terminates (g : Grid) (row col : Nat) (hr : row ≤ 9) (hc : col ≤ 9)
    (fuel : Nat) (hf : fuelFor row col ≤ fuel) :
    ∃ res g' rest, solveSudokuLog fuel g row col = some (res, g', (row, col) :: rest) ∧
      solveSudoku fuel g row col = some (res, g') ∧
      ∀ rc ∈ rest, rc.1 ≤ 9 ∧ rc.2 ≤ 9 ∧ fuelFor rc.1 rc.2 < fuelFor row col :=
  solveLog_post fuel g row col hr hc hf

theorem solveSudoku_terminates_witness :
    ∃ res g' rest, solveSudokuLog 110 scenario1 0 8 = some (res, g', (0, 8) :: rest) ∧
      solveSudoku 110 scenario1 0 8 = some (res, g') ∧
      ∀ rc ∈ rest, rc.1 ≤ 9 ∧ rc.2 ≤ 9 ∧ fuelFor rc.1 rc.2 < fuelFor 0 8 :=
  solveSudoku_terminates scenario1 0 8 (by decide) (by decide) 110 (by decide)

/-! ## The claims about `main` -/

theorem blockedGrid_no_completion : ¬ ∃ h, ValidCompletion blockedGrid h := by
  rintro ⟨h, _, ha, hv⟩
  obtain ⟨hrange, hp⟩ := hv 0 (by decide) 8 (by decide)
  have p0 := hp 0 (by decide) 0 (by decide) (by decide)
  have p1 := hp 0 (by decide) 1 (by decide) (by decide)
  have p2 := hp 0 (by decide) 2 (by decide) (by decide)
  have p3 := hp 0 (by decide) 3 (by decide) (by decide)
  have p4 := hp 0 (by decide) 4 (by decide) (by decide)
  have p5 := hp 0 (by decide) 5 (by decide) (by decide)
  have p6 := hp 0 (by decide) 6 (by decide) (by decide)
  have p7 := hp 0 (by decide) 7 (by decide) (by decide)
  have p8 := hp 7 (by decide) 8 (by decide) (by decide)
  rw [ha 0 (by decide) 0 (by decide) (by decide)] at p0
  rw [ha 0 (by decide) 1 (by decide) (by decide)] at p1
  rw [ha 0 (by decide) 2 (by decide) (by decide)] at p2
  rw [ha 0 (by decide) 3 (by decide) (by decide)] at p3
  rw [ha 0 (by decide) 4 (by decide) (by decide)] at p4
  rw [ha 0 (by decide) 5 (by decide) (by decide)] at p5
  rw [ha 0 (by decide) 6 (by decide) (by decide)] at p6
  rw [ha 0 (by decide) 7 (by decide) (by decide)] at p7
  rw [ha 7 (by decide) 8 (by decide) (by decide)] at p8
  have e0 : blockedGrid.get 0 0 = 6 := by decide
  have e1 : blockedGrid.get 0 1 = 3 := by decide
  have e2 : blockedGrid.get 0 2 = 9 := by decide
  have e3 : blockedGrid.get 0 3 = 4 := by decide
  have e4 : blockedGrid.get 0 4 = 5 := by decide
  have e5 : blockedGrid.get 0 5 = 2 := by decide
  have e6 : blockedGrid.get 0 6 = 7 := by decide
  have e7 : blockedGrid.get 0 7 = 8 := by decide
  have e8 : blockedGrid.get 7 8 = 1 := by decide
  rw [e0] at p0
  rw [e1] at p1
  rw [e2] at p2
  rw [e3] at p3
  rw [e4] at p4
  rw [e5] at p5
  rw [e6] at p6
  rw [e7] at p7
  rw [e8] at p8
  omega

theorem dupGrid_no_completion : ¬ ∃ h, ValidCompletion dupGrid h := by
  rintro ⟨h, _, ha, hv⟩
  have hp := (hv 0 (by decide) 0 (by decide)).2 0 (by decide) 1 (by decide) (by decide)
  rw [ha 0 (by decide) 0 (by decide) (by decide),
    ha 0 (by decide) 1 (by decide) (by decide)] at hp
  exact hp (by decide)

/-- A filling from the first empty cell leaves no cell empty. -/
theorem fills_full {g : Grid} {k : Nat} {h : Grid} (hf : Fills g k h)
    (hbefore : ∀ r, r < 9 → ∀ c, c < 9 → 9 * r + c < k → g.get r c ≠ 0) :
    ∀ r, r < 9 → ∀ c, c < 9 → h.get r c ≠ 0 := by
  obtain ⟨_, ha, hn⟩ := hf
  intro r hr c hc
  by_cases h1 : k ≤ 9 * r + c ∧ g.get r c = 0
  · have := (hn r hr c hc h1.1 h1.2).1
    omega
  · rw [ha r hr c hc h1]
    by_cases h0 : g.get r c = 0
    · exact hbefore r hr c hc (by
        by_contra hk
        exact h1 ⟨by omega, h0⟩)
    · exact h0

/-- C3 (completeness-on-success), evaluated on `blockedGrid`, a 9x9 grid with
entries in 0..9 and no duplicate: the coordinator launches three workers, the
first two exit with 1, the third exits with 0 and is accepted, `child_found`
is 1 and "No solution exists" is not printed; yet the grid of the accepted
worker has cell `(0, 8)` empty, `check` returned 0 on it and nothing was saved. -/
theorem main_accepts_incomplete_grid :
    blockedGrid.Shaped ∧ blockedGrid.InRange ∧ Consistent blockedGrid ∧
    main blockedGrid = some (MainRun.mk [(0, 8), (1, 0), (8, 8)]
      [WorkerEnd.exit1, WorkerEnd.exit1, WorkerEnd.fellThrough blockedGridLeft] 1 false
      (some (WorkerEnd.fellThrough blockedGridLeft))) ∧
    (WorkerEnd.fellThrough blockedGridLeft).status = 0 ∧
    (WorkerEnd.fellThrough blockedGridLeft).saved = none ∧
    check blockedGridLeft = 0 ∧ blockedGridLeft.get 0 8 = 0 := by
  refine ⟨by decide, by decide!, by decide!, by decide!, rfl, rfl, by decide!, by decide⟩

/-- C4 (worker exit codes), evaluated on `blockedGrid` for the worker started at
the empty cell `(8, 8)`: `solveSudoku` returns 1, `check` returns 0 on the grid
left behind, the child reaches no `exit` and its exit status is 0. -/
theorem worker_status_zero_with_failed_check :
    blockedGrid.get 8 8 = 0 ∧
    solveSudoku (fuelFor 8 8) blockedGrid 8 8 = some (1, blockedGridLeft) ∧
    check blockedGridLeft = 0 ∧
    worker blockedGrid 8 8 = some (WorkerEnd.fellThrough blockedGridLeft) ∧
    Option.map WorkerEnd.status (worker blockedGrid 8 8) = some 0 := by
  refine ⟨by decide, by decide!, by decide!, by decide!, by decide!⟩

/-- C5 as stated fails on two grids without valid completion.  On `dupGrid`
row 0 holds 2 twice, yet the call of its only worker returns 1, `check`
passes, the worker saves its grid and exits with 0, and the coordinator does
not print "No solution exists".  On `blockedGrid`, which has no duplicate, the
empty cell `(0, 8)` admits no digit, yet the call of the worker started at the
empty cell `(8, 8)` returns 1. -/
theorem no_completion_yet_search_succeeds :
    (dupGrid.Shaped ∧ dupGrid.InRange ∧ dupGrid.get 0 0 = 2 ∧ dupGrid.get 0 1 = 2 ∧
      (¬ ∃ h, ValidCompletion dupGrid h) ∧
      solveSudoku (fuelFor 8 8) dupGrid 8 8 = some (1, dupGridLeft) ∧
      main dupGrid = some (MainRun.mk [(8, 8)] [WorkerEnd.savedExit0 dupGridLeft] 1 false
        (some (WorkerEnd.savedExit0 dupGridLeft)))) ∧
    (blockedGrid.Shaped ∧ blockedGrid.InRange ∧ Consistent blockedGrid ∧
      (¬ ∃ h, ValidCompletion blockedGrid h) ∧ blockedGrid.get 8 8 = 0 ∧
      solveSudoku (fuelFor 8 8) blockedGrid 8 8 = some (1, blockedGridLeft)) := by
  refine ⟨⟨by decide, by decide!, by decide, by decide, dupGrid_no_completion, by decide!,
    by decide!⟩, by decide, by decide!, by decide!, blockedGrid_no_completion, by decide,
    by decide!⟩

/-- C5, amended: on a 9x9 grid with entries in 0..9 and no duplicate among its
filled cells that has no valid completion, every worker (started at an empty
cell) ends without saving a grid, that is, none passes `check` after a search
that returned 1; and the worker started at the first empty cell has its
`solveSudoku` return 0 with the grid unchanged and exits with status 1. -/
theorem no_completion_no_confirmed_success (g : Grid) (hg : g.Shaped) (hrange : g.InRange)
    (hcons : Consistent g) (hnone : ¬ ∃ h, ValidCompletion g h) :
    (∀ row col, row < 9 → col < 9 → g.get row col = 0 →
      ∃ w, worker g row col = some w ∧ w.saved = none) ∧
    (∀ row col, row < 9 → col < 9 → g.get row col = 0 →
      (∀ r, r < 9 → ∀ c, c < 9 → ¬ AtOrAfter row col r c → g.get r c ≠ 0) →
      solveSudoku (fuelFor row col) g row col = some (0, g) ∧
      worker g row col = some WorkerEnd.exit1 ∧ WorkerEnd.exit1.status = 1) := by
  constructor
  · intro row col hr hc _
    obtain ⟨res, g', e, hpost⟩ :=
      solve_post (fuelFor row col) g row col hg (le_of_lt hr) (le_of_lt hc) (le_refl _)
    unfold worker
    rw [e]
    rcases hpost with ⟨h0, _, _⟩ | ⟨h1, hfill⟩
    · subst h0
      exact ⟨WorkerEnd.exit1, by simp, rfl⟩
    · subst h1
      by_cases hchk : check g' ≠ 0
      · exfalso
        have hfull := (check_eq_one_iff g').1 ((check_ne_zero_iff g').1 hchk)
        exact hnone ⟨g', fills_valid hrange hcons hfill hfull⟩
      · exact ⟨WorkerEnd.fellThrough g', by simp [hchk], rfl⟩
  · intro row col hr hc _ hfirst
    obtain ⟨res, g', e, hpost⟩ :=
      solve_post (fuelFor row col) g row col hg (le_of_lt hr) (le_of_lt hc) (le_refl _)
    rcases hpost with ⟨h0, hsame, _⟩ | ⟨_, hfill⟩
    · subst h0
      subst hsame
      refine ⟨e, ?_, rfl⟩
      unfold worker
      rw [e]
      simp
    · exfalso
      have hfull := fills_full hfill (fun r hr' c hc' hlt =>
        hfirst r hr' c hc' (fun hat => by
          have := (atOrAfter_iff hc hc').1 hat
          omega))
      exact hnone ⟨g', fills_valid hrange hcons hfill hfull⟩

theorem no_completion_no_confirmed_success_witness :
    (∀ row col, row < 9 → col < 9 → blockedGrid.get row col = 0 →
      ∃ w, worker blockedGrid row col = some w ∧ w.saved = none) ∧
    (∀ row col, row < 9 → col < 9 → blockedGrid.get row col = 0 →
      (∀ r, r < 9 → ∀ c, c < 9 → ¬ AtOrAfter row col r c → blockedGrid.get r c ≠ 0) →
      solveSudoku (fuelFor row col) blockedGrid row col = some (0, blockedGrid) ∧
      worker blockedGrid row col = some WorkerEnd.exit1 ∧ WorkerEnd.exit1.status = 1) :=
  no_completion_no_confirmed_success blockedGrid (by decide) (by decide!) (by decide!)
    blockedGrid_no_completion

/-- C6 (fully pre-filled grid), evaluated on `scenario1Solved`, a valid grid
with no empty cell: `countZeros` is 0, no worker is launched, the wait loop
runs zero times, `child_found` stays 0 and "No solution exists" is printed;
no worker exists that could have saved the grid. -/
theorem main_solved_grid_prints_no_solution :
    countZeros scenario1Solved = 0 ∧ ValidCompletion scenario1Solved scenario1Solved ∧
    main scenario1Solved = some (MainRun.mk [] [] 0 true none) := by
  refine ⟨by decide!, by decide!, by decide!⟩

/-! ## Frame, restoration, completeness gate and least completion -/

theorem digits_sorted : digits.Pairwise (fun a b => a < b) := by
  decide

theorem lexLE_of_first {a b : Grid} {r c : Nat} (hr : r < 9) (hc : c < 9)
    (hlt : a.get r c < b.get r c)
    (hbefore : ∀ r', r' < 9 → ∀ c', c' < 9 → 9 * r' + c' < 9 * r + c →
      a.get r' c' = b.get r' c') : LexLE a b := by
  refine Or.inr ⟨r, hr, c, hc, hlt, ?_⟩
  intro r' hr' c' hc' hna
  apply hbefore r' hr' c' hc'
  have := @atOrAfter_iff r c r' c' hc hc'
  by_contra hge
  exact hna (this.2 (by omega))

theorem digitLoop_least {recurse : Grid → Option (Int × Grid)} {row col : Nat}
    (hr : row < 9) (hc : col < 9) {g : Grid} (hg : g.Shaped) (h0 : g.get row col = 0)
    (hrec : ∀ p : Grid, p.Shaped → SearchPost p (9 * row + col + 1) (recurse p))
    (hleast : ∀ p : Grid, p.Shaped → ∀ g1, recurse p = some (1, g1) →
      ∀ h, Fills p (9 * row + col + 1) h → LexLE g1 h)
    (nums : List Int) (hsorted : nums.Pairwise (fun a b => a < b)) :
    ∀ g', digitLoop recurse row col nums g = some (1, g') →
      ∀ h, Fills g (9 * row + col) h → h.get row col ∈ nums → LexLE g' h := by
  induction nums with
  | nil => intro g' _ h _ hmem; exact absurd hmem (List.not_mem_nil _)
  | cons num rest ih =>
    intro g' e h hf hmem
    obtain ⟨_, hvalid, hfill⟩ := fills_step_complete hg hr hc h0 hf
    have hsorted' := (List.pairwise_cons.1 hsorted)
    rw [digitLoop] at e
    by_cases hv : validityLoop g row col num ≠ 0
    · rw [if_pos hv] at e
      obtain ⟨res1, g1, e1, hpost1⟩ := hrec (g.put row col num) (shaped_put hg _ _ _)
      rw [e1] at e
      rcases hpost1 with ⟨hres1, hg1, hnone⟩ | ⟨hres1, hfill1⟩
      · subst hres1
        subst hg1
        simp only [ne_eq, not_true_eq_false, if_false] at e
        rw [put_restore hg hr hc h0] at e
        rcases List.mem_cons.1 hmem with hd | hd
        · exfalso
          rw [hd] at hfill
          exact hnone ⟨h, hfill⟩
        · exact ih hsorted'.2 g' e h hf hd
      · subst hres1
        simp only [ne_eq, one_ne_zero, not_false_eq_true, if_true, Option.some.injEq,
          Prod.mk.injEq, true_and] at e
        subst e
        rcases List.mem_cons.1 hmem with hd | hd
        · rw [hd] at hfill
          exact hleast _ (shaped_put hg _ _ _) g1 e1 h hfill
        · have hlt : num < h.get row col := hsorted'.1 _ hd
          have hcell : g1.get row col = num := by
            rw [hfill1.2.1 row hr col hc (by rintro ⟨h1, _⟩; omega), get_put hg hr hc,
              if_pos ⟨rfl, rfl⟩]
          apply lexLE_of_first hr hc (by rw [hcell]; exact hlt)
          intro r' hr' c' hc' hlt'
          rw [hfill1.2.1 r' hr' c' hc' (by rintro ⟨h1, _⟩; omega), get_put hg hr hc,
            if_neg (by rintro ⟨rfl, rfl⟩; omega)]
          exact (hf.2.1 r' hr' c' hc' (by rintro ⟨h1, _⟩; omega)).symm
    · rw [if_neg hv] at e
      rcases List.mem_cons.1 hmem with hd | hd
      · exfalso
        rw [hd] at hvalid
        exact hv hvalid
      · exact ih hsorted'.2 g' e h hf hd

theorem solve_least : ∀ (fuel : Nat) (g : Grid) (row col : Nat), g.Shaped → row ≤ 9 →
    col ≤ 9 → fuelFor row col ≤ fuel → ∀ g', solveSudoku fuel g row col = some (1, g') →
    ∀ h, Fills g (9 * row + col) h → LexLE g' h := by
  intro fuel
  induction fuel with
  | zero =>
    intro g row col _ _ hc hf
    unfold fuelFor at hf
    omega
  | succ n ih =>
    intro g row col hg hr hc hf g' e h hfill
    unfold fuelFor at hf
    rw [solveSudoku] at e
    by_cases h9 : row = GRID_SIZE
    · rw [if_pos h9] at e
      simp only [Option.some.injEq, Prod.mk.injEq, true_and] at e
      subst e
      unfold GRID_SIZE at h9
      refine Or.inl ?_
      intro r hr' c hc'
      exact (hfill.2.1 r hr' c hc' (by rintro ⟨h1, _⟩; omega)).symm
    · rw [if_neg h9] at e
      unfold GRID_SIZE at h9
      by_cases hc9 : col = GRID_SIZE
      · rw [if_pos hc9] at e
        unfold GRID_SIZE at hc9
        have e2 : 9 * (row + 1) + 0 = 9 * row + col := by omega
        exact ih g (row + 1) 0 hg (by omega) (by omega) (by unfold fuelFor; omega) g' e h
          (by rw [e2]; exact hfill)
      · rw [if_neg hc9] at e
        unfold GRID_SIZE at hc9
        have hr' : row < 9 := by omega
        have hc' : col < 9 := by omega
        by_cases hz : g.get row col ≠ 0
        · rw [if_pos hz] at e
          have e2 : 9 * row + (col + 1) = 9 * row + col + 1 := by omega
          exact ih g row (col + 1) hg hr (by omega) (by unfold fuelFor; omega) g' e h
            (by rw [e2]; exact (fills_skip hr' hc' hz h).2 hfill)
        · rw [if_neg hz] at e
          have h0 : g.get row col = 0 := not_not.1 hz
          have hnext : (if col + 1 = GRID_SIZE then row + 1 else row) ≤ 9 ∧
              (if col + 1 = GRID_SIZE then 0 else col + 1) ≤ 9 ∧
              fuelFor (if col + 1 = GRID_SIZE then row + 1 else row)
                (if col + 1 = GRID_SIZE then 0 else col + 1) ≤ n ∧
              9 * (if col + 1 = GRID_SIZE then row + 1 else row) +
                (if col + 1 = GRID_SIZE then 0 else col + 1) = 9 * row + col + 1 := by
            unfold fuelFor GRID_SIZE
            split_ifs <;> omega
          have hrec : ∀ p : Grid, p.Shaped → SearchPost p (9 * row + col + 1)
              (solveSudoku n p (if col + 1 = GRID_SIZE then row + 1 else row)
                (if col + 1 = GRID_SIZE then 0 else col + 1)) := by
            intro p hp
            have := solve_post n p _ _ hp hnext.1 hnext.2.1 hnext.2.2.1
            rw [hnext.2.2.2] at this
            exact this
          have hleast : ∀ p : Grid, p.Shaped → ∀ g1,
              solveSudoku n p (if col + 1 = GRID_SIZE then row + 1 else row)
                (if col + 1 = GRID_SIZE then 0 else col + 1) = some (1, g1) →
              ∀ h, Fills p (9 * row + col + 1) h → LexLE g1 h := by
            intro p hp g1 e1 h1 hf1
            exact ih p _ _ hp hnext.1 hnext.2.1 hnext.2.2.1 g1 e1 h1
              (by rw [hnext.2.2.2]; exact hf1)
          have hd := (fills_step_complete hg hr' hc' h0 hfill).1
          exact digitLoop_least hr' hc' hg h0 hrec hleast digits digits_sorted g' e h hfill
            ((mem_digits _).2 hd)

/-- C16 (frame of solveSudoku): on a 9x9 grid and for a start cell with `row, col`
in 0..8, the call returns, and the grid left behind agrees with the entry grid
on every cell that was nonzero on entry and on every cell that precedes
`(row, col)` in row-major order, whether the result is 1 or 0. -/
theorem solveSudoku_frame (g : Grid) (hg : g.Shaped) (row col : Nat) (hr : row < 9)
    (hc : col < 9) (fuel : Nat) (hf : fuelFor row col ≤ fuel) :
    ∃ res g', solveSudoku fuel g row col = some (res, g') ∧ (res = 1 ∨ res = 0) ∧
      ∀ r, r < 9 → ∀ c, c < 9 → (g.get r c ≠ 0 ∨ ¬ AtOrAfter row col r c) →
        g'.get r c = g.get r c := by
  obtain ⟨res, g', e, hpost⟩ := solve_post fuel g row col hg (le_of_lt hr) (le_of_lt hc) hf
  refine ⟨res, g', e, ?_⟩
  rcases hpost with ⟨h1, h2, _⟩ | ⟨h1, h2⟩
  · exact ⟨Or.inr h1, fun r _ c _ _ => by rw [h2]⟩
  · refine ⟨Or.inl h1, ?_⟩
    intro r hr' c hc' hcond
    apply h2.2.1 r hr' c hc'
    rintro ⟨hk, h0⟩
    rcases hcond with hne | hna
    · exact hne h0
    · exact hna ((atOrAfter_iff hc hc').2 hk)

theorem solveSudoku_frame_witness :
    ∃ res g', solveSudoku 110 scenario1 0 8 = some (res, g') ∧ (res = 1 ∨ res = 0) ∧
      ∀ r, r < 9 → ∀ c, c < 9 → (scenario1.get r c ≠ 0 ∨ ¬ AtOrAfter 0 8 r c) →
        g'.get r c = scenario1.get r c :=
  solveSudoku_frame scenario1 (by decide) 0 8 (by decide) (by decide) 110 (by decide)

/-- C17 (failure restores the grid): on a 9x9 grid and for a start with `row ≤ 9`
and `col ≤ 9`, the call returns, and if it returns 0 the grid after the call
is the grid before the call. -/
theorem solveSudoku_failure_restores (g : Grid) (hg : g.Shaped) (row col : Nat)
    (hr : row ≤ 9) (hc : col ≤ 9) (fuel : Nat) (hf : fuelFor row col ≤ fuel) :
    ∃ res g', solveSudoku fuel g row col = some (res, g') ∧ (res = 0 → g' = g) := by
  obtain ⟨res, g', e, hpost⟩ := solve_post fuel g row col hg hr hc hf
  refine ⟨res, g', e, ?_⟩
  rcases hpost with ⟨_, h2, _⟩ | ⟨h1, _⟩
  · exact fun _ => h2
  · intro h0
    rw [h0] at h1
    exact absurd h1 (by decide)

theorem solveSudoku_failure_restores_witness :
    (∃ res g', solveSudoku 110 blockedGrid 0 8 = some (res, g') ∧
      (res = 0 → g' = blockedGrid)) ∧
    solveSudoku 110 blockedGrid 0 8 = some (0, blockedGrid) :=
  ⟨solveSudoku_failure_restores blockedGrid (by decide) 0 8 (by decide) (by decide) 110
    (by decide), by decide!⟩

/-- C18 (only the first worker can pass the completeness gate): on a 9x9 grid and
for an empty start cell, the call returns; if it returns 1 then every cell at
or after the start is nonzero, `check` on the grid left behind is 1 exactly
when no cell before the start is empty in the entry grid (the start is the
first empty cell), and every empty cell before the start is still empty, in
which case `check` is 0. -/
theorem solveSudoku_check_first_only (g : Grid) (hg : g.Shaped) (row col : Nat)
    (hcell : row < 9 ∧ col < 9 ∧ g.get row col = 0) (fuel : Nat)
    (hf : fuelFor row col ≤ fuel) :
    ∃ res g', solveSudoku fuel g row col = some (res, g') ∧
      (res = 1 →
        (∀ r, r < 9 → ∀ c, c < 9 → AtOrAfter row col r c → g'.get r c ≠ 0) ∧
        (check g' = 1 ↔ ∀ r, r < 9 → ∀ c, c < 9 → ¬ AtOrAfter row col r c → g.get r c ≠ 0) ∧
        (∀ r, r < 9 → ∀ c, c < 9 → ¬ AtOrAfter row col r c → g.get r c = 0 →
          g'.get r c = 0 ∧ check g' = 0)) := by
  obtain ⟨hr, hc, _⟩ := hcell
  obtain ⟨res, g', e, hpost⟩ := solve_post fuel g row col hg (le_of_lt hr) (le_of_lt hc) hf
  refine ⟨res, g', e, ?_⟩
  intro h1
  rcases hpost with ⟨h0, _, _⟩ | ⟨_, hfill⟩
  · rw [h0] at h1
    exact absurd h1 (by decide)
  · obtain ⟨_, ha, hn⟩ := hfill
    have hafter : ∀ r, r < 9 → ∀ c, c < 9 → AtOrAfter row col r c → g'.get r c ≠ 0 := by
      intro r hr' c hc' hat
      have hk := (atOrAfter_iff hc hc').1 hat
      by_cases h0 : g.get r c = 0
      · have := (hn r hr' c hc' hk h0).1
        omega
      · rw [ha r hr' c hc' (fun hh => h0 hh.2)]
        exact h0
    have hbefore : ∀ r, r < 9 → ∀ c, c < 9 → ¬ AtOrAfter row col r c →
        g'.get r c = g.get r c := by
      intro r hr' c hc' hna
      exact ha r hr' c hc' (fun hh => hna ((atOrAfter_iff hc hc').2 hh.1))
    have hchk01 : check g' = 0 ∨ check g' = 1 := by
      unfold check
      split_ifs <;> simp
    refine ⟨hafter, ?_, ?_⟩
    · rw [check_eq_one_iff]
      constructor
      · intro hfull r hr' c hc' hna
        rw [← hbefore r hr' c hc' hna]
        exact hfull r hr' c hc'
      · intro hfirst r hr' c hc'
        by_cases hat : AtOrAfter row col r c
        · exact hafter r hr' c hc' hat
        · rw [hbefore r hr' c hc' hat]
          exact hfirst r hr' c hc' hat
    · intro r hr' c hc' hna h0
      have hz : g'.get r c = 0 := by rw [hbefore r hr' c hc' hna, h0]
      refine ⟨hz, ?_⟩
      rcases hchk01 with h | h
      · exact h
      · exact absurd hz ((check_eq_one_iff g').1 h r hr' c hc')

theorem solveSudoku_check_first_only_witness :
    ∃ res g', solveSudoku 110 blockedGrid 8 8 = some (res, g') ∧
      (res = 1 →
        (∀ r, r < 9 → ∀ c, c < 9 → AtOrAfter 8 8 r c → g'.get r c ≠ 0) ∧
        (check g' = 1 ↔
          ∀ r, r < 9 → ∀ c, c < 9 → ¬ AtOrAfter 8 8 r c → blockedGrid.get r c ≠ 0) ∧
        (∀ r, r < 9 → ∀ c, c < 9 → ¬ AtOrAfter 8 8 r c → blockedGrid.get r c = 0 →
          g'.get r c = 0 ∧ check g' = 0)) :=
  solveSudoku_check_first_only blockedGrid (by decide) 8 8 (by decide) 110 (by decide)

/-- C19 (lexicographically least completion): on a 9x9 grid and for a start cell
with `row, col` in 0..8, the call returns, and if it returns 1 the grid left
behind is an assignment of the empty cells at or after the start that comes
no later, in row-major comparison of the cells, than every such assignment. -/
theorem solveSudoku_least (g : Grid) (hg : g.Shaped) (row col : Nat) (hr : row < 9)
    (hc : col < 9) (fuel : Nat) (hf : fuelFor row col ≤ fuel) :
    ∃ res g', solveSudoku fuel g row col = some (res, g') ∧
      (res = 1 → Assigned g row col g' ∧ ∀ h, Assigned g row col h → LexLE g' h) := by
  obtain ⟨res, g', e, hpost⟩ := solve_post fuel g row col hg (le_of_lt hr) (le_of_lt hc) hf
  refine ⟨res, g', e, ?_⟩
  intro h1
  subst h1
  rcases hpost with ⟨h0, _, _⟩ | ⟨_, hfill⟩
  · exact absurd h0 (by decide)
  · refine ⟨(fills_iff_assigned g hc g').1 hfill, ?_⟩
    intro h ha
    exact solve_least fuel g row col hg (le_of_lt hr) (le_of_lt hc) hf g' e h
      ((fills_iff_assigned g hc h).2 ha)

theorem solveSudoku_least_witness :
    ∃ res g', solveSudoku 110 scenario1 0 8 = some (res, g') ∧
      (res = 1 → Assigned scenario1 0 8 g' ∧ ∀ h, Assigned scenario1 0 8 h → LexLE g' h) :=
  solveSudoku_least scenario1 (by decide) 0 8 (by decide) (by decide) 110 (by decide)

/-! ## Worker partitioning and the wait loop -/

theorem foldr_cond_cons {α : Type} (p : Nat → Bool) (f : Nat → α) (l : List Nat)
    (acc : List α) :
    l.foldr (fun col acc => if p col = true then f col :: acc else acc) acc =
      (l.filter p).map f ++ acc := by
  induction l with
  | nil => rfl
  | cons a l ih =>
    rw [List.foldr_cons, ih]
    by_cases h : p a = true
    · simp [List.filter_cons, h]
    · simp [List.filter_cons, h]

theorem foldr_append_flatMap {α : Type} (F : Nat → List α) (l : List Nat) :
    l.foldr (fun x acc => F x ++ acc) [] = l.flatMap F := by
  induction l with
  | nil => rfl
  | cons a l ih => rw [List.foldr_cons, ih, List.flatMap_cons]

theorem dispatchCells_eq (g : Grid) : dispatchCells g = emptyCells g := by
  unfold dispatchCells emptyCells rowMajorCells
  have inner : ∀ (row : Nat) (acc : List (Nat × Nat)),
      (List.range GRID_SIZE).foldr
        (fun col acc => if g.get row col = 0 then (row, col) :: acc else acc) acc =
      ((List.range 9).filter (fun col => decide (g.get row col = 0))).map (fun c => (row, c))
        ++ acc := by
    intro row acc
    have := foldr_cond_cons (fun col => decide (g.get row col = 0)) (fun c => (row, c))
      (List.range 9) acc
    simp only [decide_eq_true_eq] at this
    exact this
  simp only [inner]
  rw [foldr_append_flatMap]
  simp only [GRID_SIZE, List.filter_flatMap, List.filter_map]
  rfl

theorem foldl_count (p : Nat → Bool) (l : List Nat) (z : Nat) :
    l.foldl (fun zeroCount col => if p col = true then zeroCount + 1 else zeroCount) z =
      z + (l.filter p).length := by
  induction l generalizing z with
  | nil => rfl
  | cons a l ih =>
    rw [List.foldl_cons, ih]
    by_cases h : p a = true
    · simp [List.filter_cons, h]; omega
    · simp [List.filter_cons, h]

theorem foldl_add_sum (n : Nat → Nat) (l : List Nat) (z : Nat) :
    l.foldl (fun acc x => acc + n x) z = z + (l.map n).sum := by
  induction l generalizing z with
  | nil => rfl
  | cons a l ih => rw [List.foldl_cons, ih, List.map_cons, List.sum_cons]; omega

theorem countZeros_eq (g : Grid) : countZeros g = (emptyCells g).length := by
  rw [← dispatchCells_eq]
  unfold countZeros dispatchCells
  have innerC : ∀ (row z : Nat),
      (List.range GRID_SIZE).foldl
        (fun zeroCount col => if g.get row col = 0 then zeroCount + 1 else zeroCount) z =
      z + ((List.range 9).filter (fun col => decide (g.get row col = 0))).length := by
    intro row z
    have := foldl_count (fun col => decide (g.get row col = 0)) (List.range 9) z
    simp only [decide_eq_true_eq] at this
    exact this
  have innerD : ∀ (row : Nat) (acc : List (Nat × Nat)),
      (List.range GRID_SIZE).foldr
        (fun col acc => if g.get row col = 0 then (row, col) :: acc else acc) acc =
      ((List.range 9).filter (fun col => decide (g.get row col = 0))).map (fun c => (row, c))
        ++ acc := by
    intro row acc
    have := foldr_cond_cons (fun col => decide (g.get row col = 0)) (fun c => (row, c))
      (List.range 9) acc
    simp only [decide_eq_true_eq] at this
    exact this
  simp only [innerC, innerD]
  rw [foldr_append_flatMap, foldl_add_sum, List.length_flatMap]
  simp only [GRID_SIZE, Function.comp_def, List.length_map, Nat.zero_add]

theorem mem_rowMajorCells (r c : Nat) : (r, c) ∈ rowMajorCells ↔ r < 9 ∧ c < 9 := by
  simp [rowMajorCells, List.mem_flatMap, List.mem_map, List.mem_range]

theorem rowMajorCells_sorted :
    rowMajorCells.Pairwise (fun a b => 9 * a.1 + a.2 < 9 * b.1 + b.2) := by
  decide!

theorem main_eq (g : Grid) :
    main g =
      match runWorkers g (dispatchCells g) with
      | none => none
      | some ws =>
        some (MainRun.mk (dispatchCells g) ws
          (waitLoop ((ws.take (countZeros g)).map WorkerEnd.status))
          (decide (waitLoop ((ws.take (countZeros g)).map WorkerEnd.status) = 0))
          (firstAccepted (ws.take (countZeros g)))) := rfl

/-- C11 (worker partitioning): for every grid, the start cells for which the
coordinator launches a worker are the empty cells of the grid in row-major
order: the list equals the row-major enumeration of the 81 cells filtered by
emptiness, it holds exactly the cells `(r, c)` with `r, c < 9` and
`puzzle[r][c] = 0`, each once and in increasing row-major position; its length
is `countZeros()` and at most 81. -/
theorem dispatch_is_empty_cells (g : Grid) :
    dispatchCells g = emptyCells g ∧
    (∀ r c, (r, c) ∈ dispatchCells g ↔ r < 9 ∧ c < 9 ∧ g.get r c = 0) ∧
    (dispatchCells g).Pairwise (fun a b => 9 * a.1 + a.2 < 9 * b.1 + b.2) ∧
    (dispatchCells g).length = countZeros g ∧ countZeros g ≤ 81 ∧
    (∀ run, main g = some run → run.launched = dispatchCells g) := by
  refine ⟨dispatchCells_eq g, ?_, ?_, ?_, ?_, ?_⟩
  · intro r c
    rw [dispatchCells_eq]
    unfold emptyCells
    rw [List.mem_filter, mem_rowMajorCells]
    simp [and_assoc]
  · rw [dispatchCells_eq]
    exact rowMajorCells_sorted.filter _
  · rw [countZeros_eq, dispatchCells_eq]
  · rw [countZeros_eq]
    unfold emptyCells
    exact le_trans (List.length_filter_le _ _) (by decide)
  · intro run hrun
    rw [main_eq] at hrun
    cases hw : runWorkers g (dispatchCells g) with
    | none => rw [hw] at hrun; cases hrun
    | some ws =>
      rw [hw] at hrun
      simp only [Option.some.injEq] at hrun
      rw [← hrun]

theorem waitLoop_zero_iff (statuses : List Int) :
    waitLoop statuses = 0 ↔ ∀ s ∈ statuses, s ≠ 0 := by
  induction statuses with
  | nil => simp [waitLoop]
  | cons s rest ih =>
    rw [waitLoop]
    by_cases h : s = 0
    · simp [h]
    · simp [h, ih]

theorem waitLoop_first (pre post : List Int) (hpre : ∀ s ∈ pre, s ≠ 0) :
    waitLoop (pre ++ 0 :: post) = 1 ∧ waitCalls (pre ++ 0 :: post) = pre.length + 1 := by
  induction pre with
  | nil => simp [waitLoop, waitCalls]
  | cons s rest ih =>
    have hs : s ≠ 0 := hpre s (List.mem_cons_self _ _)
    have := ih (fun t ht => hpre t (List.mem_cons_of_mem _ ht))
    simp [waitLoop, waitCalls, hs, this]

theorem waitCalls_all (statuses : List Int) (h : ∀ s ∈ statuses, s ≠ 0) :
    waitCalls statuses = statuses.length := by
  induction statuses with
  | nil => rfl
  | cons s rest ih =>
    have hs : s ≠ 0 := h s (List.mem_cons_self _ _)
    simp [waitCalls, hs, ih (fun t ht => h t (List.mem_cons_of_mem _ ht))]

theorem firstAccepted_first (pre : List WorkerEnd) (w : WorkerEnd) (post : List WorkerEnd)
    (hw : w.status = 0) (hpre : ∀ v ∈ pre, v.status ≠ 0) :
    firstAccepted (pre ++ w :: post) = some w := by
  induction pre with
  | nil => simp [firstAccepted, hw]
  | cons v rest ih =>
    have hv : v.status ≠ 0 := hpre v (List.mem_cons_self _ _)
    simp [firstAccepted, hv, ih (fun t ht => hpre t (List.mem_cons_of_mem _ ht))]

/-- C12 (coordinator outcome): for every list of workers in launch order, with
their exit statuses, `child_found` ends as 0 or 1; "No solution exists" is
printed exactly when no status in the list is 0; when a status is 0, the wait
loop stops at the first such worker (one `waitpid` call per worker up to and
including it), that worker is the accepted one, and nothing is printed; when
no status is 0 every worker is waited for.  In a run of `main` the message and
the accepted worker are those of the wait loop over its workers. -/
theorem coordinator_outcome (ends : List WorkerEnd) :
    (waitLoop (ends.map WorkerEnd.status) = 0 ∨ waitLoop (ends.map WorkerEnd.status) = 1) ∧
    (decide (waitLoop (ends.map WorkerEnd.status) = 0) = true ↔
      ∀ w ∈ ends, w.status ≠ 0) ∧
    (∀ pre w post, ends = pre ++ w :: post → w.status = 0 → (∀ v ∈ pre, v.status ≠ 0) →
      waitLoop (ends.map WorkerEnd.status) = 1 ∧
      decide (waitLoop (ends.map WorkerEnd.status) = 0) = false ∧
      waitCalls (ends.map WorkerEnd.status) = pre.length + 1 ∧
      firstAccepted ends = some w) ∧
    ((∀ w ∈ ends, w.status ≠ 0) →
      waitCalls (ends.map WorkerEnd.status) = ends.length ∧ firstAccepted ends = none) ∧
    (∀ g run, main g = some run →
      run.child_found = waitLoop ((run.ends.take (countZeros g)).map WorkerEnd.status) ∧
      run.printedNoSolution = decide (run.child_found = 0) ∧
      run.accepted = firstAccepted (run.ends.take (countZeros g))) := by
  have hall : waitLoop (ends.map WorkerEnd.status) = 0 ↔ ∀ w ∈ ends, w.status ≠ 0 := by
    rw [waitLoop_zero_iff]
    simp [List.mem_map]
  refine ⟨?_, ?_, ?_, ?_, ?_⟩
  · induction ends with
    | nil => exact Or.inl rfl
    | cons w rest ih =>
      have hrest : waitLoop (rest.map WorkerEnd.status) = 0 ∨
          waitLoop (rest.map WorkerEnd.status) = 1 := by
        apply ih
        rw [waitLoop_zero_iff]
        simp [List.mem_map]
      rw [List.map_cons, waitLoop]
      by_cases h : w.status = 0
      · exact Or.inr (by simp [h])
      · simpa [h] using hrest
  · rw [decide_eq_true_iff]
    exact hall
  · intro pre w post he hw hpre
    subst he
    have h1 := waitLoop_first (pre.map WorkerEnd.status) (post.map WorkerEnd.status)
      (by simpa [List.mem_map] using hpre)
    rw [List.map_append, List.map_cons, hw]
    refine ⟨h1.1, ?_, ?_, firstAccepted_first pre w post hw hpre⟩
    · rw [h1.1]; decide
    · rw [h1.2, List.length_map]
  · intro hno
    refine ⟨?_, ?_⟩
    · rw [waitCalls_all _ (by simpa [List.mem_map] using hno), List.length_map]
    · clear hall
      induction ends with
      | nil => rfl
      | cons w rest ih =>
        have hw : w.status ≠ 0 := hno w (List.mem_cons_self _ _)
        simp [firstAccepted, hw, ih (fun t ht => hno t (List.mem_cons_of_mem _ ht))]
  · intro g run hrun
    rw [main_eq] at hrun
    cases hw : runWorkers g (dispatchCells g) with
    | none => rw [hw] at hrun; cases hrun
    | some ws =>
      rw [hw] at hrun
      simp only [Option.some.injEq] at hrun
      rw [← hrun]
      exact ⟨rfl, rfl, rfl⟩

/-! ## Lock order and initialised locks -/

theorem segmented_nil : Segmented [] := ⟨[], rfl, fun _ h => absurd h (List.not_mem_nil _)⟩

theorem segmented_one {seg : List Event} (h : Segment seg) : Segmented seg :=
  ⟨[seg], by simp, fun s hs => by rw [List.mem_singleton.1 hs]; exact h⟩

theorem segmented_append {a b : List Event} (ha : Segmented a) (hb : Segmented b) :
    Segmented (a ++ b) := by
  obtain ⟨sa, ea, ha⟩ := ha
  obtain ⟨sb, eb, hb⟩ := hb
  refine ⟨sa ++ sb, by rw [ea, eb, List.flatten_append], ?_⟩
  intro s hs
  rcases List.mem_append.1 hs with h | h
  · exact ha s h
  · exact hb s h

theorem segment_placement {row col : Nat} (hr : row < 9) (hc : col < 9) {num : Int}
    (hnum : 1 ≤ num ∧ num ≤ 9) : Segment (placement row col num) :=
  Or.inr (Or.inr (Or.inr ⟨row, col, num, hr, hc, hnum.1, hnum.2, rfl⟩))

theorem lockDiscipline_append {a b : List Event} (hb : lockDiscipline [] b) :
    ∀ held, lockDiscipline held a → lockDiscipline held (a ++ b) := by
  induction a with
  | nil =>
    intro held h
    rw [lockDiscipline] at h
    rw [h]
    exact hb
  | cons e a ih =>
    intro held h
    cases e with
    | call r c => exact ⟨h.1, ih _ h.2⟩
    | ret v => exact ⟨h.1, ih _ h.2⟩
    | wait s => exact ⟨h.1, ih _ h.2⟩
    | post s => exact ⟨h.1, ih _ h.2⟩
    | write r c v => exact ⟨h.1, ih _ h.2⟩

theorem lockDiscipline_segment {seg : List Event} (h : Segment seg) :
    lockDiscipline [] seg := by
  rcases h with ⟨r, c, rfl⟩ | ⟨v, rfl⟩ | ⟨r, c, _, _, rfl⟩ | ⟨r, c, num, _, _, _, _, rfl⟩
  · exact ⟨rfl, rfl⟩
  · exact ⟨rfl, rfl⟩
  · exact ⟨Or.inl rfl, rfl⟩
  · simp [lockDiscipline]

theorem segmented_discipline {evs : List Event} (h : Segmented evs) :
    lockDiscipline [] evs := by
  obtain ⟨segs, e, hs⟩ := h
  subst e
  induction segs with
  | nil => exact rfl
  | cons seg rest ih =>
    rw [List.flatten_cons]
    exact lockDiscipline_append (ih (fun s hs' => hs s (List.mem_cons_of_mem _ hs'))) []
      (lockDiscipline_segment (hs seg (List.mem_cons_self _ _)))

theorem digitLoopEv_post {recEv : Grid → Option (Int × Grid × List Event)}
    {recurse : Grid → Option (Int × Grid)}
    (hrec : ∀ p, ∃ res g' evs, recEv p = some (res, g', evs) ∧
      recurse p = some (res, g') ∧ Segmented evs)
    {row col : Nat} (hr : row < 9) (hc : col < 9) (nums : List Int)
    (hnums : ∀ n ∈ nums, 1 ≤ n ∧ n ≤ 9) :
    ∀ g : Grid, ∃ res g' evs, digitLoopEv recEv row col nums g = some (res, g', evs) ∧
      digitLoop recurse row col nums g = some (res, g') ∧ Segmented evs := by
  induction nums with
  | nil => intro g; exact ⟨0, g, [], rfl, rfl, segmented_nil⟩
  | cons num rest ih =>
    intro g
    have hnum := hnums num (List.mem_cons_self _ _)
    have ih' := ih (fun n hn => hnums n (List.mem_cons_of_mem _ hn))
    rw [digitLoopEv, digitLoop]
    by_cases hv : validityLoop g row col num ≠ 0
    · rw [if_pos hv, if_pos hv]
      obtain ⟨res1, g1, evs1, e1, e2, hq1⟩ := hrec (g.put row col num)
      rw [e1, e2]
      have hplace := segmented_one (segment_placement hr hc hnum)
      by_cases hres : res1 ≠ 0
      · refine ⟨1, g1, placement row col num ++ evs1, ?_, ?_, segmented_append hplace hq1⟩
          <;> simp [hres]
      · obtain ⟨res2, g2, evs2, e3, e4, hq2⟩ := ih' (g1.put row col 0)
        refine ⟨res2, g2, placement row col num ++ evs1 ++ Event.write row col 0 :: evs2,
          ?_, ?_, ?_⟩
        · simp only [hres, if_false]
          rw [e3]
        · simp only [hres, if_false]
          exact e4
        · apply segmented_append (segmented_append hplace hq1)
          have hw : Segmented [Event.write row col 0] :=
            segmented_one (Or.inr (Or.inr (Or.inl ⟨row, col, hr, hc, rfl⟩)))
          exact segmented_append hw hq2
    · rw [if_neg hv, if_neg hv]
      exact ih' g

theorem solveSudokuEv_succ (fuel : Nat) (puzzle : Grid) (row column : Nat) :
    solveSudokuEv (fuel + 1) puzzle row column =
      if row = GRID_SIZE then some (1, puzzle, [Event.call row column, Event.ret 1])
      else if column = GRID_SIZE then
        match solveSudokuEv fuel puzzle (row + 1) 0 with
        | none => none
        | some (r, p, evs) => some (r, p, Event.call row column :: evs ++ [Event.ret r])
      else if puzzle.get row column ≠ 0 then
        match solveSudokuEv fuel puzzle row (column + 1) with
        | none => none
        | some (r, p, evs) => some (r, p, Event.call row column :: evs ++ [Event.ret r])
      else
        match digitLoopEv
            (fun p => solveSudokuEv fuel p (if column + 1 = GRID_SIZE then row + 1 else row)
              (if column + 1 = GRID_SIZE then 0 else column + 1))
            row column digits puzzle with
        | none => none
        | some (r, p, evs) =>
          some (r, p, Event.call row column :: evs ++ [Event.ret r]) := rfl

theorem segmented_wrap {evs : List Event} (h : Segmented evs) (row col : Nat) (r : Int) :
    Segmented (Event.call row col :: evs ++ [Event.ret r]) := by
  have h1 : Segmented [Event.call row col] := segmented_one (Or.inl ⟨row, col, rfl⟩)
  have h2 : Segmented [Event.ret r] := segmented_one (Or.inr (Or.inl ⟨r, rfl⟩))
  exact segmented_append (segmented_append h1 h) h2

theorem solveEv_post : ∀ (fuel : Nat) (g : Grid) (row col : Nat), row ≤ 9 → col ≤ 9 →
    fuelFor row col ≤ fuel →
    ∃ res g' evs, solveSudokuEv fuel g row col = some (res, g', evs) ∧
      solveSudoku fuel g row col = some (res, g') ∧ Segmented evs := by
  intro fuel
  induction fuel with
  | zero =>
    intro g row col _ hc hf
    unfold fuelFor at hf
    omega
  | succ n ih =>
    intro g row col hr hc hf
    unfold fuelFor at hf
    rw [solveSudokuEv_succ, solveSudoku]
    by_cases h9 : row = GRID_SIZE
    · rw [if_pos h9, if_pos h9]
      exact ⟨1, g, _, rfl, rfl, segmented_wrap segmented_nil row col 1⟩
    · rw [if_neg h9, if_neg h9]
      unfold GRID_SIZE at h9
      by_cases hc9 : col = GRID_SIZE
      · rw [if_pos hc9, if_pos hc9]
        unfold GRID_SIZE at hc9
        obtain ⟨res, g', evs, e1, e2, hq⟩ :=
          ih g (row + 1) 0 (by omega) (by omega) (by unfold fuelFor; omega)
        rw [e1]
        exact ⟨res, g', _, rfl, e2, segmented_wrap hq row col res⟩
      · rw [if_neg hc9, if_neg hc9]
        unfold GRID_SIZE at hc9
        by_cases hz : g.get row col ≠ 0
        · rw [if_pos hz, if_pos hz]
          obtain ⟨res, g', evs, e1, e2, hq⟩ :=
            ih g row (col + 1) hr (by omega) (by unfold fuelFor; omega)
          rw [e1]
          exact ⟨res, g', _, rfl, e2, segmented_wrap hq row col res⟩
        · rw [if_neg hz, if_neg hz]
          have hnext : (if col + 1 = GRID_SIZE then row + 1 else row) ≤ 9 ∧
              (if col + 1 = GRID_SIZE then 0 else col + 1) ≤ 9 ∧
              fuelFor (if col + 1 = GRID_SIZE then row + 1 else row)
                (if col + 1 = GRID_SIZE then 0 else col + 1) ≤ n := by
            unfold fuelFor GRID_SIZE
            split_ifs <;> omega
          obtain ⟨res, g', evs, e1, e2, hq⟩ :=
            digitLoopEv_post (fun p => ih p _ _ hnext.1 hnext.2.1 hnext.2.2)
              (by omega : row < 9) (by omega : col < 9) digits
              (fun n hn => (mem_digits n).1 hn) g
          rw [e1]
          exact ⟨res, g', _, rfl, e2, segmented_wrap hq row col res⟩

theorem segmented_waits {evs : List Event} (h : Segmented evs) (s : Sem)
    (hs : Event.wait s ∈ evs) :
    ∃ r c, r < 9 ∧ c < 9 ∧
      (s = Sem.row r ∨ s = Sem.column c ∨ s = Sem.subgrid (r / 3 * 3) (c / 3 * 3)) := by
  obtain ⟨segs, e, hseg⟩ := h
  subst e
  obtain ⟨seg, hmem, hin⟩ := List.mem_flatten.1 hs
  rcases hseg seg hmem with ⟨r, c, rfl⟩ | ⟨v, rfl⟩ | ⟨r, c, _, _, rfl⟩ |
      ⟨r, c, num, hr, hc, _, _, rfl⟩
  · simp at hin
  · simp at hin
  · simp at hin
  · refine ⟨r, c, hr, hc, ?_⟩
    simp at hin
    rcases hin with h | h | h
    · exact Or.inl h
    · exact Or.inr (Or.inl h)
    · exact Or.inr (Or.inr h)

theorem mem_subgridSteps (i : Nat) : i ∈ subgridSteps ↔ i = 0 ∨ i = 3 ∨ i = 6 := by
  unfold subgridSteps GRID_SIZE SUBGRID_SIZE
  rw [List.mem_filter, List.mem_range]
  simp only [decide_eq_true_eq]
  omega

theorem mem_initializeSemaphores (s : Sem) :
    s ∈ initializeSemaphores ↔
      (∃ i, i < 9 ∧ (s = Sem.row i ∨ s = Sem.column i)) ∨
      (∃ i j, i ∈ subgridSteps ∧ j ∈ subgridSteps ∧ s = Sem.subgrid i j) := by
  unfold initializeSemaphores GRID_SIZE
  simp only [List.mem_append, List.mem_flatMap, List.mem_range, List.mem_cons,
    List.mem_singleton, List.mem_map, List.not_mem_nil, or_false]
  constructor
  · rintro (⟨i, hi, h⟩ | ⟨i, hi, j, hj, h⟩)
    · exact Or.inl ⟨i, hi, h⟩
    · exact Or.inr ⟨i, j, hi, hj, h.symm⟩
  · rintro (⟨i, hi, h⟩ | ⟨i, j, hi, hj, h⟩)
    · exact Or.inl ⟨i, hi, h⟩
    · exact Or.inr ⟨i, hi, j, hj, h.symm⟩

theorem lock_initialised {r c : Nat} (hr : r < 9) (hc : c < 9) {s : Sem}
    (h : s = Sem.row r ∨ s = Sem.column c ∨ s = Sem.subgrid (r / 3 * 3) (c / 3 * 3)) :
    s ∈ initializeSemaphores := by
  rw [mem_initializeSemaphores]
  rcases h with h | h | h
  · exact Or.inl ⟨r, hr, Or.inl h⟩
  · exact Or.inl ⟨c, hc, Or.inr h⟩
  · refine Or.inr ⟨r / 3 * 3, c / 3 * 3, ?_, ?_, h⟩
    · rw [mem_subgridSteps]; omega
    · rw [mem_subgridSteps]; omega

/-- C13 as stated fails on `lastCellOpen` from `(8, 8)`: the one placement, of 2
into `(8, 8)`, acquires the row, column and block lock in that order, and after
the write the first lock released is the row lock and the last one the block
lock, which is the order of acquisition and not its reverse. -/
theorem locks_released_in_acquisition_order :
    solveSudokuEv (fuelFor 8 8) lastCellOpen 8 8 = some (1, scenario1Solved,
      [Event.call 8 8,
       Event.wait (Sem.row 8), Event.wait (Sem.column 8), Event.wait (Sem.subgrid 6 6),
       Event.write 8 8 2,
       Event.post (Sem.row 8), Event.post (Sem.column 8), Event.post (Sem.subgrid 6 6),
       Event.call 9 0, Event.ret 1, Event.ret 1]) ∧
    (placement 8 8 2).drop 4 ≠
      [Event.post (Sem.subgrid 6 6), Event.post (Sem.column 8), Event.post (Sem.row 8)] := by
  refine ⟨by decide!, by decide!⟩

/-- C13, amended: for every grid and every start with `row ≤ 9` and `col ≤ 9` the
call returns, and its event log is a sequence of entries, returns, unlocked
resets of a cell to 0 and placements; each placement acquires the row lock,
then the column lock, then the block lock of its cell, writes the digit, and
releases the row lock, then the column lock, then the block lock.  Along the
log no lock is held at any entry to or return from `solveSudoku`. -/
theorem lock_order (g : Grid) (row col : Nat) (hr : row ≤ 9) (hc : col ≤ 9) (fuel : Nat)
    (hf : fuelFor row col ≤ fuel) :
    ∃ res g' evs, solveSudokuEv fuel g row col = some (res, g', evs) ∧
      solveSudoku fuel g row col = some (res, g') ∧ Segmented evs ∧
      lockDiscipline [] evs := by
  obtain ⟨res, g', evs, e1, e2, hseg⟩ := solveEv_post fuel g row col hr hc hf
  exact ⟨res, g', evs, e1, e2, hseg, segmented_discipline hseg⟩

theorem lock_order_witness :
    ∃ res g' evs, solveSudokuEv 110 scenario1 0 8 = some (res, g', evs) ∧
      solveSudoku 110 scenario1 0 8 = some (res, g') ∧ Segmented evs ∧
      lockDiscipline [] evs :=
  lock_order scenario1 0 8 (by decide) (by decide) 110 (by decide)

/-- C20 (locks used are locks initialised): for a cell with `row, col` in 0..8,
the block-lock index `(row/3*3, col/3*3)` has both components in {0, 3, 6};
the three semaphores the placement waits on are among those set up by
`initializeSemaphores`, which are also those torn down by `destroySemaphores`
and include exactly nine subgrid semaphores; and in every call of
`solveSudoku` started at the cell, every `sem_wait` is on an initialised
semaphore. -/
theorem locks_are_initialised (row col : Nat) (hr : row < 9) (hc : col < 9) :
    (row / 3 * 3 = 0 ∨ row / 3 * 3 = 3 ∨ row / 3 * 3 = 6) ∧
    (col / 3 * 3 = 0 ∨ col / 3 * 3 = 3 ∨ col / 3 * 3 = 6) ∧
    (∀ num, (placement row col num).take 3 =
      [Event.wait (Sem.row row), Event.wait (Sem.column col),
       Event.wait (Sem.subgrid (row / 3 * 3) (col / 3 * 3))]) ∧
    Sem.row row ∈ initializeSemaphores ∧ Sem.column col ∈ initializeSemaphores ∧
    Sem.subgrid (row / 3 * 3) (col / 3 * 3) ∈ initializeSemaphores ∧
    destroySemaphores = initializeSemaphores ∧
    (initializeSemaphores.filter Sem.isSubgrid).length = 9 ∧
    initializeSemaphores.Nodup ∧
    (∀ (g : Grid) (fuel : Nat), fuelFor row col ≤ fuel →
      ∃ res g' evs, solveSudokuEv fuel g row col = some (res, g', evs) ∧
        ∀ s, Event.wait s ∈ evs → s ∈ initializeSemaphores) := by
  refine ⟨by omega, by omega, fun _ => rfl, lock_initialised hr hc (Or.inl rfl),
    lock_initialised hr hc (Or.inr (Or.inl rfl)),
    lock_initialised hr hc (Or.inr (Or.inr rfl)), rfl, by decide, by decide!, ?_⟩
  intro g fuel hf
  obtain ⟨res, g', evs, e1, _, hseg⟩ :=
    solveEv_post fuel g row col (le_of_lt hr) (le_of_lt hc) hf
  refine ⟨res, g', evs, e1, ?_⟩
  intro s hs
  obtain ⟨r, c, hr', hc', h⟩ := segmented_waits hseg s hs
  exact lock_initialised hr' hc' h

theorem locks_are_initialised_witness :
    (4 / 3 * 3 = 0 ∨ 4 / 3 * 3 = 3 ∨ 4 / 3 * 3 = 6) ∧
    (7 / 3 * 3 = 0 ∨ 7 / 3 * 3 = 3 ∨ 7 / 3 * 3 = 6) ∧
    (∀ num, (placement 4 7 num).take 3 =
      [Event.wait (Sem.row 4), Event.wait (Sem.column 7),
       Event.wait (Sem.subgrid (4 / 3 * 3) (7 / 3 * 3))]) ∧
    Sem.row 4 ∈ initializeSemaphores ∧ Sem.column 7 ∈ initializeSemaphores ∧
    Sem.subgrid (4 / 3 * 3) (7 / 3 * 3) ∈ initializeSemaphores ∧
    destroySemaphores = initializeSemaphores ∧
    (initializeSemaphores.filter Sem.isSubgrid).length = 9 ∧
    initializeSemaphores.Nodup ∧
    (∀ (g : Grid) (fuel : Nat), fuelFor 4 7 ≤ fuel →
      ∃ res g' evs, solveSudokuEv fuel g 4 7 = some (res, g', evs) ∧
        ∀ s, Event.wait s ∈ evs → s ∈ initializeSemaphores) :=
  locks_are_initialised 4 7 (by decide) (by decide)

/-! ## Loading and saving -/

theorem list_eq_range_map {α : Type} (l : List α) (d : α) (n : Nat) (h : l.length = n) :
    l = (List.range n).map (fun j => l.getD j d) := by
  apply List.ext_getElem
  · simp [h]
  · intro i h1 h2
    simp [List.getD_eq_getElem?_getD, h1]

theorem loadCells_some_iff (token : List Char) (js : List Nat) (cells : List Int) :
    loadCells token js = some cells ↔
      (∀ j ∈ js, isDigitChar (token.getD j (Char.ofNat 0)) = true) ∧
      cells = js.map (fun j => digitValue (token.getD j (Char.ofNat 0))) := by
  induction js generalizing cells with
  | nil =>
    rw [loadCells]
    constructor
    · intro e
      exact ⟨fun _ h => absurd h (List.not_mem_nil _), (Option.some.inj e).symm⟩
    · rintro ⟨_, e⟩
      rw [e]
      rfl
  | cons j js ih =>
    rw [loadCells]
    by_cases hd : isDigitChar (token.getD j (Char.ofNat 0)) = true
    · rw [if_pos hd]
      cases hrec : loadCells token js with
      | none =>
        simp only [List.mem_cons, forall_eq_or_imp, List.map_cons, false_iff, not_and,
          reduceCtorEq]
        intro hall _
        have := (ih (js.map (fun j => digitValue (token.getD j (Char.ofNat 0))))).2
          ⟨hall.2, rfl⟩
        rw [hrec] at this
        cases this
      | some cs =>
        have hcs := (ih cs).1 hrec
        simp only [Option.some.injEq, List.mem_cons, forall_eq_or_imp, List.map_cons]
        constructor
        · intro e
          rw [← e, hcs.2]
          exact ⟨⟨hd, hcs.1⟩, rfl⟩
        · rintro ⟨_, e⟩
          rw [e, hcs.2]
    · rw [if_neg hd]
      simp only [List.mem_cons, forall_eq_or_imp, false_iff, not_and, reduceCtorEq]
      intro hall
      exact absurd hall.1 hd

theorem nul_not_digit : isDigitChar (Char.ofNat 0) = false := by decide

theorem goodToken_iff (token : List Char) :
    (∀ j ∈ List.range GRID_SIZE, isDigitChar (token.getD j (Char.ofNat 0)) = true) ↔
      GoodToken token := by
  unfold GoodToken GRID_SIZE
  constructor
  · intro h
    have hlen : 9 ≤ token.length := by
      by_contra hlt
      have := h token.length (List.mem_range.2 (by omega))
      rw [List.getD_eq_default _ _ (le_refl _), nul_not_digit] at this
      cases this
    refine ⟨hlen, ?_⟩
    intro c hc
    obtain ⟨j, hj, e⟩ := List.getElem_of_mem hc
    rw [List.length_take] at hj
    have hj9 : j < 9 := by omega
    have := h j (List.mem_range.2 hj9)
    rw [List.getD_eq_getElem _ _ (by omega)] at this
    rw [← e, List.getElem_take]
    exact this
  · rintro ⟨hlen, h⟩ j hj
    have hj9 : j < 9 := List.mem_range.1 hj
    rw [List.getD_eq_getElem _ _ (by omega)]
    apply h
    have hjt : j < (token.take 9).length := by rw [List.length_take]; omega
    have := List.getElem_mem hjt
    rw [List.getElem_take] at this
    exact this

theorem rowOfToken_eq (token : List Char) (h : 9 ≤ token.length) :
    (List.range GRID_SIZE).map (fun j => digitValue (token.getD j (Char.ofNat 0))) =
      rowOfToken token := by
  unfold rowOfToken GRID_SIZE
  apply List.ext_getElem
  · simp [List.length_take]; omega
  · intro i h1 h2
    have hi : i < 9 := by simpa using h1
    simp [List.getD_eq_getElem?_getD, List.getElem?_eq_getElem (by omega : i < token.length)]

theorem loadCells_range (token : List Char) :
    loadCells token (List.range GRID_SIZE) =
      if GoodToken token then some (rowOfToken token) else none := by
  by_cases hgood : GoodToken token
  · rw [if_pos hgood, loadCells_some_iff]
    exact ⟨(goodToken_iff token).2 hgood, (rowOfToken_eq token hgood.1).symm⟩
  · rw [if_neg hgood]
    cases h : loadCells token (List.range GRID_SIZE) with
    | none => rfl
    | some cells =>
      exact absurd ((goodToken_iff token).1 ((loadCells_some_iff _ _ _).1 h).1) hgood

theorem loadRows_succ (n : Nat) (input : List Char) :
    loadRows (n + 1) input =
      match scanToken input with
      | none => LoadResult.exit1
      | some (token, rest) =>
        if GRID_SIZE * GRID_SIZE + 1 ≤ token.length then LoadResult.overflow
        else
          match loadCells token (List.range GRID_SIZE) with
          | none => LoadResult.exit1
          | some cells =>
            match loadRows n rest with
            | LoadResult.loaded rows => LoadResult.loaded (cells :: rows)
            | LoadResult.exit1 => LoadResult.exit1
            | LoadResult.overflow => LoadResult.overflow := rfl

theorem tokensOf_succ (n : Nat) (input : List Char) :
    tokensOf (n + 1) input =
      match scanToken input with
      | none => []
      | some (token, rest) => token :: tokensOf n rest := rfl

/-- What a successful load tells about the input. -/
theorem loadRows_loaded : ∀ (n : Nat) (input : List Char) (g : Grid),
    loadRows n input = LoadResult.loaded g →
    (tokensOf n input).length = n ∧
    (∀ t ∈ tokensOf n input, GoodToken t ∧ t.length ≤ 81) ∧
    g = (tokensOf n input).map rowOfToken := by
  intro n
  induction n with
  | zero =>
    intro input g h
    simp only [loadRows, LoadResult.loaded.injEq] at h
    exact ⟨rfl, fun t ht => absurd ht (List.not_mem_nil _), h.symm⟩
  | succ n ih =>
    intro input g h
    rw [loadRows_succ] at h
    rw [tokensOf_succ]
    cases hs : scanToken input with
    | none => rw [hs] at h; cases h
    | some tr =>
      obtain ⟨token, rest⟩ := tr
      rw [hs] at h
      simp only at h ⊢
      by_cases hlen : GRID_SIZE * GRID_SIZE + 1 ≤ token.length
      · rw [if_pos hlen] at h; cases h
      · rw [if_neg hlen, loadCells_range] at h
        unfold GRID_SIZE at hlen
        by_cases hgood : GoodToken token
        · rw [if_pos hgood] at h
          simp only at h
          cases hr : loadRows n rest with
          | exit1 => rw [hr] at h; cases h
          | overflow => rw [hr] at h; cases h
          | loaded rows =>
            rw [hr] at h
            simp only [LoadResult.loaded.injEq] at h
            obtain ⟨h1, h2, h3⟩ := ih rest rows hr
            refine ⟨by simp [h1], ?_, ?_⟩
            · intro t ht
              rcases List.mem_cons.1 ht with rfl | ht
              · exact ⟨hgood, by omega⟩
              · exact h2 t ht
            · rw [← h, h3, List.map_cons]
        · rw [if_neg hgood] at h
          cases h

/-- The result of the load when no token is too long for the buffer. -/
theorem loadRows_of_tokens : ∀ (n : Nat) (input : List Char),
    (∀ t ∈ tokensOf n input, t.length ≤ 81) →
    loadRows n input =
      if (tokensOf n input).length = n ∧ ∀ t ∈ tokensOf n input, GoodToken t
      then LoadResult.loaded ((tokensOf n input).map rowOfToken) else LoadResult.exit1 := by
  intro n
  induction n with
  | zero => intro input _; simp [loadRows, tokensOf]
  | succ n ih =>
    intro input hshort
    rw [loadRows_succ]
    rw [tokensOf_succ] at hshort ⊢
    cases hs : scanToken input with
    | none => simp
    | some tr =>
      obtain ⟨token, rest⟩ := tr
      rw [hs] at hshort
      simp only at hshort ⊢
      have hlen : ¬ GRID_SIZE * GRID_SIZE + 1 ≤ token.length := by
        have := hshort token (List.mem_cons_self _ _)
        unfold GRID_SIZE
        omega
      rw [if_neg hlen, loadCells_range, ih rest (fun t ht => hshort t (List.mem_cons_of_mem _ ht))]
      by_cases hgood : GoodToken token
      · rw [if_pos hgood]
        by_cases hrest : (tokensOf n rest).length = n ∧ ∀ t ∈ tokensOf n rest, GoodToken t
        · have hcond : (token :: tokensOf n rest).length = n + 1 ∧
              ∀ t ∈ token :: tokensOf n rest, GoodToken t := by
            refine ⟨by simp [hrest.1], ?_⟩
            intro t ht
            rcases List.mem_cons.1 ht with rfl | ht
            · exact hgood
            · exact hrest.2 t ht
          rw [if_pos hrest, if_pos hcond]
          rfl
        · have hcond : ¬ ((token :: tokensOf n rest).length = n + 1 ∧
              ∀ t ∈ token :: tokensOf n rest, GoodToken t) := by
            rintro ⟨h1, h2⟩
            apply hrest
            refine ⟨by simpa using h1, fun t ht => h2 t (List.mem_cons_of_mem _ ht)⟩
          rw [if_neg hrest, if_neg hcond]
      · have hcond : ¬ ((token :: tokensOf n rest).length = n + 1 ∧
            ∀ t ∈ token :: tokensOf n rest, GoodToken t) := by
          rintro ⟨_, h2⟩
          exact hgood (h2 token (List.mem_cons_self _ _))
        rw [if_neg hgood, if_neg hcond]

theorem rowOfToken_shape (t : List Char) (h : GoodToken t) :
    (rowOfToken t).length = 9 ∧ ∀ v ∈ rowOfToken t, 0 ≤ v ∧ v ≤ 9 := by
  unfold rowOfToken
  refine ⟨by rw [List.length_map, List.length_take]; have := h.1; omega, ?_⟩
  intro v hv
  obtain ⟨c, hc, rfl⟩ := List.mem_map.1 hv
  have := h.2 c hc
  unfold isDigitChar at this
  simp only [decide_eq_true_eq] at this
  have h0 : ('0' : Char).toNat = 48 := rfl
  have h9 : ('9' : Char).toNat = 57 := rfl
  unfold digitValue
  omega

theorem loaded_shape (toks : List (List Char)) (hlen : toks.length = 9)
    (hgood : ∀ t ∈ toks, GoodToken t) :
    Grid.Shaped (toks.map rowOfToken) ∧ Grid.InRange (toks.map rowOfToken) := by
  constructor
  · refine ⟨by rw [List.length_map, hlen], ?_⟩
    intro r hr
    obtain ⟨t, ht, rfl⟩ := List.mem_map.1 hr
    exact (rowOfToken_shape t (hgood t ht)).1
  · intro r hr c hc
    unfold Grid.get
    have hr' : r < (toks.map rowOfToken).length := by rw [List.length_map, hlen]; exact hr
    rw [List.getD_eq_getElem _ _ hr']
    have hmem : (toks.map rowOfToken)[r] ∈ toks.map rowOfToken := List.getElem_mem _
    obtain ⟨t, ht, e⟩ := List.mem_map.1 hmem
    rw [← e]
    have hs := rowOfToken_shape t (hgood t ht)
    rw [List.getD_eq_getElem _ _ (by rw [hs.1]; exact hc)]
    exact hs.2 _ (List.getElem_mem _)

theorem dropWhile_leading (p : Char → Bool) (ws xs : List Char)
    (hws : ∀ c ∈ ws, p c = true) : (ws ++ xs).dropWhile p = xs.dropWhile p := by
  induction ws with
  | nil => rfl
  | cons a ws ih =>
    have ha : p a = true := hws a (List.mem_cons_self _ _)
    rw [List.cons_append, List.dropWhile_cons, if_pos ha]
    exact ih (fun c hc => hws c (List.mem_cons_of_mem _ hc))

theorem takeWhile_stop (q : Char → Bool) (l : List Char) (d : Char) (rest : List Char)
    (hl : ∀ c ∈ l, q c = true) (hd : q d = false) :
    (l ++ d :: rest).takeWhile q = l ∧ (l ++ d :: rest).dropWhile q = d :: rest := by
  induction l with
  | nil => simp [List.takeWhile_cons, List.dropWhile_cons, hd]
  | cons a l ih =>
    have ha : q a = true := hl a (List.mem_cons_self _ _)
    have := ih (fun c hc => hl c (List.mem_cons_of_mem _ hc))
    rw [List.cons_append, List.takeWhile_cons, List.dropWhile_cons, if_pos ha, if_pos ha,
      this.1, this.2]
    exact ⟨rfl, rfl⟩

theorem scanToken_line (ws l rest : List Char) (hws : ∀ c ∈ ws, isSpace c = true)
    (hne : l ≠ []) (hl : ∀ c ∈ l, isSpace c = false) :
    scanToken (ws ++ (l ++ newline :: rest)) = some (l, newline :: rest) := by
  unfold scanToken
  have hnl : (fun c => !isSpace c) newline = false := by decide
  have hl' : ∀ c ∈ l, (fun c => !isSpace c) c = true := by
    intro c hc
    simp [hl c hc]
  have hdrop : (ws ++ (l ++ newline :: rest)).dropWhile isSpace = l ++ newline :: rest := by
    rw [dropWhile_leading isSpace ws _ hws]
    cases l with
    | nil => exact absurd rfl hne
    | cons a l =>
      have ha : isSpace a = false := hl a (List.mem_cons_self _ _)
      rw [List.cons_append, List.dropWhile_cons, if_neg (by simp [ha])]
  have hst := takeWhile_stop (fun c => !isSpace c) l newline rest hl' hnl
  simp only [hdrop, hst.1, hst.2, if_neg hne]

theorem digit_not_space (c : Char) (h : isDigitChar c = true) : isSpace c = false := by
  unfold isDigitChar at h
  unfold isSpace
  simp only [decide_eq_true_eq] at h
  have h0 : ('0' : Char).toNat = 48 := rfl
  simp only [decide_eq_false_iff_not]
  omega

theorem tokensOf_textOf (lines : List (List Char))
    (hlines : ∀ l ∈ lines, l ≠ [] ∧ ∀ c ∈ l, isSpace c = false) :
    ∀ ws : List Char, (∀ c ∈ ws, isSpace c = true) →
      tokensOf lines.length (ws ++ textOf lines) = lines := by
  induction lines with
  | nil => intro ws _; rfl
  | cons l ls ih =>
    intro ws hws
    have hl := hlines l (List.mem_cons_self _ _)
    have e : textOf (l :: ls) = l ++ newline :: textOf ls := by
      unfold textOf
      rw [List.flatMap_cons, List.append_assoc]
      rfl
    rw [e, List.length_cons, tokensOf_succ, scanToken_line ws l _ hws hl.1 hl.2]
    simp only
    have := ih (fun l' hl' => hlines l' (List.mem_cons_of_mem _ hl')) [newline]
      (by intro c hc; rw [List.mem_singleton.1 hc]; decide)
    rw [List.singleton_append] at this
    rw [this]

theorem textOf_length (lines : List (List Char)) (h : ∀ l ∈ lines, l.length = 9) :
    (textOf lines).length = 10 * lines.length := by
  induction lines with
  | nil => rfl
  | cons l ls ih =>
    have e : textOf (l :: ls) = l ++ newline :: textOf ls := by
      unfold textOf
      rw [List.flatMap_cons, List.append_assoc]
      rfl
    rw [e, List.length_append, List.length_cons, ih (fun x hx => h x (List.mem_cons_of_mem _ hx)),
      h l (List.mem_cons_self _ _), List.length_cons]
    omega

theorem formatInt_digit (n : Nat) (h1 : 48 ≤ n) (h2 : n ≤ 57) :
    formatInt (digitValue (Char.ofNat n)) = [Char.ofNat n] := by
  interval_cases n <;> decide

theorem formatInt_digitValue (c : Char) (h : isDigitChar c = true) :
    formatInt (digitValue c) = [c] := by
  unfold isDigitChar at h
  simp only [decide_eq_true_eq] at h
  have h0 : ('0' : Char).toNat = 48 := rfl
  have h9 : ('9' : Char).toNat = 57 := rfl
  have := formatInt_digit c.toNat (by omega) (by omega)
  rw [Char.ofNat_toNat] at this
  exact this

theorem map_eq_flatMap_one {α β : Type} (f : α → β) (l : List α) :
    l.map f = l.flatMap (fun x => [f x]) := by
  induction l with
  | nil => rfl
  | cons a l ih => rw [List.map_cons, List.flatMap_cons, ih]; rfl

theorem wellFormed_tokens (lines : List (List Char)) (hwf : WellFormedLines lines) :
    tokensOf 9 (textOf lines) = lines ∧ (∀ t ∈ lines, GoodToken t ∧ t.length ≤ 81) ∧
      lines.map rowOfToken = lines.map (fun l => l.map digitValue) := by
  obtain ⟨hlen, hl⟩ := hwf
  refine ⟨?_, ?_, ?_⟩
  · have := tokensOf_textOf lines (fun l hmem => by
      refine ⟨?_, fun c hc => digit_not_space c ((hl l hmem).2 c hc)⟩
      intro e
      have := (hl l hmem).1
      rw [e] at this
      cases this) [] (fun c hc => absurd hc (List.not_mem_nil _))
    rw [hlen, List.nil_append] at this
    exact this
  · intro t ht
    obtain ⟨h9, hd⟩ := hl t ht
    refine ⟨⟨by omega, fun c hc => hd c (List.mem_of_mem_take hc)⟩, by omega⟩
  · apply List.map_congr_left
    intro l hmem
    unfold rowOfToken
    rw [List.take_of_length_le (by rw [(hl l hmem).1])]

/-- C14 as stated fails: `loadSudoku` accepts a text whose first line has ten
characters, which is no text of nine lines of nine characters each, and a
text with a tenth line that holds a letter; both load as scenario 1. -/
theorem loadSudoku_accepts_malformed :
    loadSudoku longLineText = LoadResult.loaded scenario1 ∧
    longLineText.length = 91 ∧
    (∀ lines, WellFormedLines lines → (textOf lines).length = 90) ∧
    loadSudoku trailingText = LoadResult.loaded scenario1 ∧
    isDigitChar (trailingText.getD 90 (Char.ofNat 0)) = false := by
  refine ⟨by decide!, by decide!, ?_, by decide!, by decide!⟩
  intro lines hwf
  rw [textOf_length lines (fun l hl => (hwf.2 l hl).1), hwf.1]

/-- C14, amended: `loadSudoku` reads at most nine white-space separated tokens and
looks at the first nine characters of each.  It succeeds only if the input
holds nine tokens, each with at least nine characters of which the first nine
are digits, and then the rows of the grid are the values of those digits, a
9x9 grid with entries in 0..9.  When none of these tokens is longer than the
buffer (81 characters), it succeeds in exactly that case and otherwise exits
with status 1 before the coordinator starts; in particular a token shorter
than nine characters among the first nine, or a non-digit among its first
nine characters, is rejected. -/
theorem loadSudoku_accepts (input : List Char) :
    (∀ g, loadSudoku input = LoadResult.loaded g →
      (tokensOf 9 input).length = 9 ∧ (∀ t ∈ tokensOf 9 input, GoodToken t) ∧
      g = (tokensOf 9 input).map rowOfToken ∧ g.Shaped ∧ g.InRange) ∧
    ((∀ t ∈ tokensOf 9 input, t.length ≤ 81) →
      ((tokensOf 9 input).length = 9 ∧ ∀ t ∈ tokensOf 9 input, GoodToken t) →
      loadSudoku input = LoadResult.loaded ((tokensOf 9 input).map rowOfToken)) ∧
    ((∀ t ∈ tokensOf 9 input, t.length ≤ 81) →
      ¬ ((tokensOf 9 input).length = 9 ∧ ∀ t ∈ tokensOf 9 input, GoodToken t) →
      loadSudoku input = LoadResult.exit1 ∧ program input = ProgramEnd.loadExit1) := by
  refine ⟨?_, ?_, ?_⟩
  · intro g hg
    obtain ⟨h1, h2, h3⟩ := loadRows_loaded 9 input g hg
    have hshape := loaded_shape (tokensOf 9 input) h1 (fun t ht => (h2 t ht).1)
    rw [← h3] at hshape
    exact ⟨h1, fun t ht => (h2 t ht).1, h3, hshape.1, hshape.2⟩
  · intro hshort hgood
    have := loadRows_of_tokens 9 input hshort
    rw [if_pos hgood] at this
    exact this
  · intro hshort hbad
    have := loadRows_of_tokens 9 input hshort
    rw [if_neg hbad] at this
    have hload : loadSudoku input = LoadResult.exit1 := this
    refine ⟨hload, ?_⟩
    unfold program
    rw [hload]

/-- C15 (load/save round trip): for every text of nine newline-terminated lines of
exactly nine digits, `loadSudoku` succeeds, `puzzle[i][j]` is the value of
character `j` of line `i`, and `saveSudoku` on the loaded grid writes the
text back. -/
theorem load_save_round_trip (lines : List (List Char)) (hwf : WellFormedLines lines) :
    loadSudoku (textOf lines) = LoadResult.loaded (lines.map (fun l => l.map digitValue)) ∧
    (∀ i, i < 9 → ∀ j, j < 9 →
      Grid.get (lines.map (fun l => l.map digitValue)) i j =
        digitValue ((lines.getD i []).getD j (Char.ofNat 0))) ∧
    saveSudoku (lines.map (fun l => l.map digitValue)) = textOf lines := by
  obtain ⟨htok, hgood, hrows⟩ := wellFormed_tokens lines hwf
  obtain ⟨hlen, hl⟩ := hwf
  have hget : ∀ i, i < 9 → ∀ j, j < 9 →
      Grid.get (lines.map (fun l => l.map digitValue)) i j =
        digitValue ((lines.getD i []).getD j (Char.ofNat 0)) := by
    intro i hi j hj
    have hi' : i < lines.length := by omega
    have hrow : (lines[i]).length = 9 := (hl _ (List.getElem_mem _)).1
    have hj' : j < (lines[i]).length := by omega
    simp [Grid.get, List.getD_eq_getElem?_getD, List.getElem?_eq_getElem hi',
      List.getElem?_eq_getElem hj']
  refine ⟨?_, hget, ?_⟩
  · have := loadRows_of_tokens 9 (textOf lines) (by
      rw [htok]; exact fun t ht => (hgood t ht).2)
    rw [htok, if_pos ⟨hlen, fun t ht => (hgood t ht).1⟩, hrows] at this
    exact this
  · unfold saveSudoku textOf GRID_SIZE
    conv_rhs => rw [list_eq_range_map lines [] 9 hlen]
    rw [List.flatMap_map]
    apply List.flatMap_congr
    intro i hi
    have hi9 : i < 9 := List.mem_range.1 hi
    have hi' : i < lines.length := by omega
    have hmem : lines.getD i [] ∈ lines := by
      rw [List.getD_eq_getElem _ _ hi']
      exact List.getElem_mem _
    have hrow := hl _ hmem
    congr 1
    conv_rhs => rw [list_eq_range_map (lines.getD i []) (Char.ofNat 0) 9 hrow.1,
      map_eq_flatMap_one]
    apply List.flatMap_congr
    intro j hj
    have hj9 : j < 9 := List.mem_range.1 hj
    rw [hget i hi9 j hj9]
    apply formatInt_digitValue
    apply hrow.2
    rw [List.getD_eq_getElem (lines.getD i []) (Char.ofNat 0) (by rw [hrow.1]; exact hj9)]
    exact List.getElem_mem _

theorem load_save_round_trip_witness :
    (loadSudoku (textOf scenario1Lines) =
        LoadResult.loaded (scenario1Lines.map (fun l => l.map digitValue)) ∧
      (∀ i, i < 9 → ∀ j, j < 9 →
        Grid.get (scenario1Lines.map (fun l => l.map digitValue)) i j =
          digitValue ((scenario1Lines.getD i []).getD j (Char.ofNat 0))) ∧
      saveSudoku (scenario1Lines.map (fun l => l.map digitValue)) = textOf scenario1Lines) ∧
    scenario1Lines.map (fun l => l.map digitValue) = scenario1 :=
  ⟨load_save_round_trip scenario1Lines (by decide!), by decide!⟩

end Sudoku
